import Mathlib

/-!
Verification of the SMALL static data-race analyzer (repository
`INFOM227_ConcurrencyAnalyser`, modules `effects.py`, `constraints.py`,
`concurrency.py`, `conflicts.py`, `engine.py` of the `race_analysis`
package).  The Python modules are shallowly embedded: Python sets become
`Finset`, the per-variable site dictionaries (`var -> set of lines`,
never holding an empty set once constructed) become the `Finset` of their
(variable, line) pairs, other dictionaries become insertion-ordered
association lists exactly as in CPython, and raised exceptions become
`Except` results.  The final `sorted(...)` presentation of the warning
set is not modelled: `analyze_program` here returns the set of warnings,
which determines the Python list up to its sorted presentation.
-/

namespace SmallRace

/-- Errors raised by the analyzer: Python `ValueError` for semantic
constraint violations and `KeyError` for a failed lookup of a function
name in a dictionary. -/
inductive AnalysisError where
  | valueError (msg : String)
  | keyError (key : String)
deriving DecidableEq

deriving instance DecidableEq for Except

/-! ### Association lists: the model of Python `dict`

CPython dictionaries preserve insertion order; item assignment keeps the
position of an existing key and appends a fresh key. -/

/-- Lookup in an association list (`d[k]` / `d.get(k)`). -/
def alookup {β : Type} : String → List (String × β) → Option β
  | _, [] => none
  | k, (k1, v) :: r => if k = k1 then some v else alookup k r

/-- Item assignment `d[k] = v`: replace the value at an existing key in
place, append a fresh key at the end. -/
def aupdate {β : Type} (k : String) (v : β) : List (String × β) → List (String × β)
  | [] => [(k, v)]
  | (k1, v1) :: r => if k = k1 then (k, v) :: r else (k1, v1) :: aupdate k v r

/-! ### Abstract syntax (`abstract_syntax_tree.py`) -/

/-- Expressions: `Var`, `Num`, `Bool`, `BinOp`, `RelOp`, each carrying a
source line. -/
inductive Expr where
  | var (line : Nat) (name : String)
  | num (line : Nat) (value : Int)
  | boolLit (line : Nat) (value : Bool)
  | binop (line : Nat) (op : String) (left right : Expr)
  | relop (line : Nat) (op : String) (left right : Expr)
deriving DecidableEq

mutual
/-- Statements.  A Python `Seq` holds a list of statements; a `SpawnBlock`
body is a `Seq` and is modelled by the list of its statements. -/
inductive Stmt where
  | assign (line : Nat) (target : String) (expr : Expr)
  | assignCall (line : Nat) (target : String) (func : String) (args : List Expr)
  | callStmt (line : Nat) (func : String) (args : List Expr)
  | spawn (line : Nat) (handle : Option String) (target : SpawnTarget)
  | await (line : Nat) (handle : String)
  | ifS (line : Nat) (cond : Expr) (thenS elseS : Stmt)
  | whileS (line : Nat) (cond : Expr) (body : Stmt)
  | seq (line : Nat) (stmts : List Stmt)
  | ret (line : Nat) (expr : Expr)

/-- The target of a `Spawn`: `SpawnCall(func, args)` or `SpawnBlock(body)`. -/
inductive SpawnTarget where
  | call (func : String) (args : List Expr) (line : Nat)
  | block (body : List Stmt) (line : Nat)
end

/-- Function definition: name, ordered formal parameters, body (a `Seq`,
modelled by its statement list) and declaration line. -/
structure FunctionDef where
  name : String
  params : List String
  body : List Stmt
  line : Nat

/-- A program: the (insertion-ordered) dictionary from function name to
definition. -/
structure Program where
  functions : List (String × FunctionDef)

/-! ### Effects (`effects.py`) -/

/-- Variables referenced by an expression (`vars_in_expr`). -/
def vars_in_expr : Expr → Finset String
  | .var _ n => {n}
  | .num _ _ => ∅
  | .boolLit _ _ => ∅
  | .binop _ _ l r => vars_in_expr l ∪ vars_in_expr r
  | .relop _ _ l r => vars_in_expr l ∪ vars_in_expr r

/-- Union of the variables of a list of argument expressions (the loop
`for a in args: acc |= vars_in_expr(a)`). -/
def vars_in_args (args : List Expr) : Finset String :=
  args.foldl (fun s a => s ∪ vars_in_expr a) ∅

/-- Read/write footprint of a function or fragment.  The Python site
dictionaries `var -> set(line)` are represented by their graph, the set
of (variable, line) pairs; the code only ever creates nonempty line
sets, so the representation preserves dictionary equality. -/
structure Effect where
  reads : Finset String
  writes : Finset String
  read_sites : Finset (String × Nat)
  write_sites : Finset (String × Nat)
deriving DecidableEq

/-- The empty effect `Effect()`. -/
def Effect.empty : Effect := ⟨∅, ∅, ∅, ∅⟩

/-- Line set stored for `v` in a site map (`sites.get(v, set())`). -/
def sitesFor (sites : Finset (String × Nat)) (v : String) : Finset Nat :=
  (sites.filter (fun p => p.1 = v)).image Prod.snd

/-- Method `Effect.add_read`. -/
def Effect.add_read (e : Effect) (v : String) (line : Nat) : Effect :=
  { e with reads := insert v e.reads, read_sites := insert (v, line) e.read_sites }

/-- Method `Effect.add_write`. -/
def Effect.add_write (e : Effect) (v : String) (line : Nat) : Effect :=
  { e with writes := insert v e.writes, write_sites := insert (v, line) e.write_sites }

/-- Method `Effect.union`: pointwise union of all four components. -/
def Effect.union (a b : Effect) : Effect :=
  ⟨a.reads ∪ b.reads, a.writes ∪ b.writes,
   a.read_sites ∪ b.read_sites, a.write_sites ∪ b.write_sites⟩

/-- Effect of the loop `for v in vs: eff.add_read(v, line)` applied to the
empty effect: every variable of `vs` read at `line`. -/
def reads_at (vs : Finset String) (line : Nat) : Effect :=
  ⟨vs, ∅, vs.image (fun v => (v, line)), ∅⟩

/-- Parameter-to-argument-variables mapping of `substitute_effect`:
`mapping[p] = vars_in_expr(actual_args[i])` for the formal `p` at
position `i`, empty when the actual is missing; built by dictionary
assignment over `enumerate(params)`, so a later duplicate formal
overwrites an earlier one. -/
def paramMap (params : List String) (actual_args : List Expr) : List (String × Finset String) :=
  (params.enum).foldl
    (fun m pi => aupdate pi.2 ((actual_args.get? pi.1).elim ∅ vars_in_expr) m) []

/-- Targets of a variable under the mapping: `mapping.get(v, {v})`. -/
def targetsOf (mapping : List (String × Finset String)) (v : String) : Finset String :=
  (alookup v mapping).getD {v}

/-- Function `substitute_effect(callee, callee_def, actual_args)`: each
access of a formal becomes an access of the variables of the actual at
the same lines, a non-formal keeps its name; accumulated with
`add_read`/`add_write` from the empty effect, so `reads`/`writes` are
the first projections of the generated site pairs. -/
def substitute_effect (callee : Effect) (callee_def : FunctionDef)
    (actual_args : List Expr) : Effect :=
  let mapping := paramMap callee_def.params actual_args
  let rpairs : Finset (String × Nat) :=
    callee.reads.biUnion fun v =>
      (targetsOf mapping v).biUnion fun tv =>
        (sitesFor callee.read_sites v).image fun ln => (tv, ln)
  let wpairs : Finset (String × Nat) :=
    callee.writes.biUnion fun v =>
      (targetsOf mapping v).biUnion fun tv =>
        (sitesFor callee.write_sites v).image fun ln => (tv, ln)
  ⟨rpairs.image Prod.fst, wpairs.image Prod.fst, rpairs, wpairs⟩

/-- Per-function effect summaries, keyed by function name. -/
abbrev EffMap := List (String × Effect)

/-- Lookup `prog.functions[f]`, raising `KeyError` when absent. -/
def getFn (prog : Program) (f : String) : Except AnalysisError FunctionDef :=
  match alookup f prog.functions with
  | some d => .ok d
  | none => .error (.keyError f)

/-- Lookup `effects[f]`, raising `KeyError` when absent. -/
def getEff (effects : EffMap) (f : String) : Except AnalysisError Effect :=
  match alookup f effects with
  | some e => .ok e
  | none => .error (.keyError f)

mutual
/-- Function `compute_effect_stmt` (its unused `current_func` parameter is
carried along as in the source). -/
def compute_effect_stmt (stmt : Stmt) (prog : Program) (effects : EffMap)
    (current_func : FunctionDef) : Except AnalysisError Effect :=
  match stmt with
  | .assign line target expr =>
      .ok ((reads_at (vars_in_expr expr) line).add_write target line)
  | .assignCall line target func args => do
      let callee_def ← getFn prog func
      let ceff ← getEff effects func
      .ok (((reads_at (vars_in_args args) line).union
              (substitute_effect ceff callee_def args)).add_write target line)
  | .callStmt line func args => do
      let callee_def ← getFn prog func
      let ceff ← getEff effects func
      .ok ((reads_at (vars_in_args args) line).union
             (substitute_effect ceff callee_def args))
  | .spawn line handle target =>
      let heff := match handle with
        | some h => Effect.empty.add_write h line
        | none => Effect.empty
      match target with
      | .call func args _ => do
          let callee_def ← getFn prog func
          let ceff ← getEff effects func
          .ok ((heff.union (reads_at (vars_in_args args) line)).union
                 (substitute_effect ceff callee_def args))
      | .block body _ => do
          let thr ← compute_effect_seq body prog effects current_func
          .ok (heff.union thr)
  | .await _ _ => .ok Effect.empty
  | .ret line expr => .ok (reads_at (vars_in_expr expr) line)
  | .seq _ stmts => compute_effect_seq stmts prog effects current_func
  | .ifS line cond thenS elseS => do
      let e1 ← compute_effect_stmt thenS prog effects current_func
      let e2 ← compute_effect_stmt elseS prog effects current_func
      .ok (((reads_at (vars_in_expr cond) line).union e1).union e2)
  | .whileS line cond body => do
      let e1 ← compute_effect_stmt body prog effects current_func
      .ok ((reads_at (vars_in_expr cond) line).union e1)

/-- Function `compute_effect_seq`: left-to-right union of the statement
effects (errors propagate in statement order). -/
def compute_effect_seq (stmts : List Stmt) (prog : Program) (effects : EffMap)
    (current_func : FunctionDef) : Except AnalysisError Effect :=
  match stmts with
  | [] => .ok Effect.empty
  | s :: r => do
      let e1 ← compute_effect_stmt s prog effects current_func
      let e2 ← compute_effect_seq r prog effects current_func
      .ok (e1.union e2)
end

/-- One function of the inner loop of `compute_function_effects`:
recompute the body effect from the current map; when it differs from the
stored summary, union it into the stored summary and report a change. -/
def step_one (prog : Program) (effs : EffMap) (fname : String)
    (fdef : FunctionDef) : Except AnalysisError (EffMap × Bool) := do
  let new_eff ← compute_effect_seq fdef.body prog effs fdef
  let old ← getEff effs fname
  if new_eff = old then .ok (effs, false)
  else .ok (aupdate fname (old.union new_eff) effs, true)

/-- One full pass of the fixpoint loop over all functions, threading the
map and the `changed` flag. -/
def step_pass (prog : Program) :
    List (String × FunctionDef) → EffMap → Bool → Except AnalysisError (EffMap × Bool)
  | [], effs, changed => .ok (effs, changed)
  | (fname, fdef) :: rest, effs, changed => do
      let r ← step_one prog effs fname fdef
      step_pass prog rest r.1 (changed || r.2)

/-- The bounded iteration (`for _ in range(50)` with early `break` when a
pass reports no change). -/
def iterate_effects (prog : Program) : Nat → EffMap → Except AnalysisError EffMap
  | 0, effs => .ok effs
  | n + 1, effs => do
      let r ← step_pass prog prog.functions effs false
      if r.2 then iterate_effects prog n r.1 else .ok r.1

/-- Function `compute_function_effects`: start from the all-empty summary
map and iterate to the monotone union fixpoint (at most 50 passes). -/
def compute_function_effects (prog : Program) : Except AnalysisError EffMap :=
  iterate_effects prog 50 (prog.functions.map fun p => (p.1, Effect.empty))

/-- Unbounded pass iteration, used to state what the limit of the
fixpoint iteration is. -/
def passes (prog : Program) : Nat → EffMap → Except AnalysisError EffMap
  | 0, effs => .ok effs
  | k + 1, effs => do
      let r ← step_pass prog prog.functions effs false
      passes prog k r.1

/-! ### Constraints (`constraints.py`) -/

mutual
/-- Function `enforce_no_spawn_await_in_if_while`: a `Spawn`/`Await` met
with `inside_control` set raises `ValueError` naming its line; `Seq`
propagates the flag, `If`/`While` set it for their branches/body; the
body of a `SpawnBlock` is not visited. -/
def enforce_no_spawn_await_in_if_while (stmt : Stmt) (inside_control : Bool) :
    Except AnalysisError Unit :=
  match stmt with
  | .spawn line _ _ =>
      if inside_control then
        .error (.valueError
          ("spawn/await not allowed inside if/while (line " ++ toString line ++ ")"))
      else .ok ()
  | .await line _ =>
      if inside_control then
        .error (.valueError
          ("spawn/await not allowed inside if/while (line " ++ toString line ++ ")"))
      else .ok ()
  | .seq _ stmts => enforce_seq stmts inside_control
  | .ifS _ _ thenS elseS => do
      enforce_no_spawn_await_in_if_while thenS true
      enforce_no_spawn_await_in_if_while elseS true
  | .whileS _ _ body => enforce_no_spawn_await_in_if_while body true
  | _ => .ok ()

/-- The `for s in stmt.stmts` loop of the `Seq` case (exceptions stop the
loop at the first offender). -/
def enforce_seq (stmts : List Stmt) (inside_control : Bool) :
    Except AnalysisError Unit :=
  match stmts with
  | [] => .ok ()
  | s :: r => do
      enforce_no_spawn_await_in_if_while s inside_control
      enforce_seq r inside_control
end

mutual
/-- Function `list_spawns_awaits`: collect, in traversal order, the
`Spawn` and the `Await` statements of a body, descending only through
`Seq`. -/
def list_spawns_awaits (stmt : Stmt) : List Stmt × List Stmt :=
  match stmt with
  | .spawn line handle target => ([.spawn line handle target], [])
  | .await line handle => ([], [.await line handle])
  | .seq _ stmts => list_spawns_awaits_seq stmts
  | _ => ([], [])

/-- The `for s in stmt.stmts` loop of `list_spawns_awaits`. -/
def list_spawns_awaits_seq (stmts : List Stmt) : List Stmt × List Stmt :=
  match stmts with
  | [] => ([], [])
  | s :: r =>
      let p := list_spawns_awaits s
      let q := list_spawns_awaits_seq r
      (p.1 ++ q.1, p.2 ++ q.2)
end

/-! ### Thread snapshots and concurrent state (`concurrency.py`) -/

/-- Snapshot of a live thread's footprint, as in class `ThreadInfo`. -/
structure ThreadInfo where
  thread_id : String
  desc : String
  spawn_line : Nat
  reads : Finset String
  writes : Finset String
  read_sites : Finset (String × Nat)
  write_sites : Finset (String × Nat)
deriving DecidableEq

/-- Function `threadinfo_from_effect`. -/
def threadinfo_from_effect (eff : Effect) (tid desc : String) (spawn_line : Nat) :
    ThreadInfo :=
  ⟨tid, desc, spawn_line, eff.reads, eff.writes, eff.read_sites, eff.write_sites⟩

/-- Concurrent state: active threads keyed by thread id, and the handle
environment mapping handle variables to sets of thread ids. -/
structure ConcurState where
  active : List (String × ThreadInfo)
  handle_env : List (String × Finset String)
deriving DecidableEq

/-- The empty `ConcurState()`. -/
def ConcurState.empty : ConcurState := ⟨[], []⟩

/-- Merge step of `join_states` for one entry of the right state's
`active` dictionary: merge footprints when the id is already present
(keeping the left side's description and spawn line), append otherwise. -/
def active_insert (acc : List (String × ThreadInfo)) (tid : String) (t : ThreadInfo) :
    List (String × ThreadInfo) :=
  match alookup tid acc with
  | some o =>
      aupdate tid
        ⟨tid, o.desc, o.spawn_line, o.reads ∪ t.reads, o.writes ∪ t.writes,
         o.read_sites ∪ t.read_sites, o.write_sites ∪ t.write_sites⟩ acc
  | none => aupdate tid t acc

/-- Function `join_states`: union of `active` keyed by thread id and
pointwise union of `handle_env`. -/
def join_states (a b : ConcurState) : ConcurState :=
  { active := b.active.foldl (fun acc p => active_insert acc p.1 p.2) a.active,
    handle_env :=
      b.handle_env.foldl
        (fun acc p => aupdate p.1 ((alookup p.1 acc).getD ∅ ∪ p.2) acc)
        a.handle_env }

/-! ### Conflict checking (`conflicts.py`) -/

/-- Class `RaceWarning`.  The Python field `lines_b` stores
`tuple(sorted(s))` of a set `s` of lines; the tuple is the canonical
presentation of that set, so the field is modelled by the set itself
(structural equality, used for deduplication, is preserved). -/
structure RaceWarning where
  var : String
  kind : String
  line_a : Nat
  ctx_a : String
  lines_b : Finset Nat
  ctx_b : String
deriving DecidableEq

/-- Function `mode_for`. -/
def mode_for (var : String) (reads writes : Finset String) : Option String :=
  if var ∈ reads ∧ var ∈ writes then some "RW"
  else if var ∈ reads then some "R"
  else if var ∈ writes then some "W"
  else none

/-- Function `collect_other_lines`: the thread's write sites for `var`
when it writes `var`, union its read sites when it reads `var`; the
spawn line when that union is empty. -/
def collect_other_lines (t : ThreadInfo) (var : String) : Finset Nat :=
  let lines :=
    (if var ∈ t.writes then sitesFor t.write_sites var else ∅) ∪
    (if var ∈ t.reads then sitesFor t.read_sites var else ∅)
  if lines = ∅ then {t.spawn_line} else lines

/-- Function `conflicts`. -/
def conflicts (mode : String) (t : ThreadInfo) (var : String) : Bool :=
  if mode = "R" then var ∈ t.writes
  else if mode = "W" ∨ mode = "RW" then var ∈ t.writes ∨ var ∈ t.reads
  else false

/-- Function `check_access`: one warning per active thread in conflict
with the access. -/
def check_access (state : ConcurState) (var mode : String) (line : Nat)
    (ctx : String) : List RaceWarning :=
  state.active.filterMap fun p =>
    if conflicts mode p.2 var then
      some
        { var := var, kind := mode ++ " vs T", line_a := line, ctx_a := ctx,
          lines_b := collect_other_lines p.2 var,
          ctx_b := p.2.desc ++ " (spawn line " ++ toString p.2.spawn_line ++ ")" }
    else none

/-- Function `check_thread_thread`: a "T vs T" warning per overlapping
variable (the Python function returns them as a list sorted by variable,
immediately added to the warning set; the set of warnings is returned
here). -/
def check_thread_thread (newt oldt : ThreadInfo) (discover_line : Nat) :
    Finset RaceWarning :=
  let overlap := (newt.writes ∩ (oldt.reads ∪ oldt.writes)) ∪ (newt.reads ∩ oldt.writes)
  overlap.image fun var =>
    { var := var, kind := "T vs T", line_a := discover_line,
      ctx_a := "concurrent threads overlap starting at spawn line " ++
        toString discover_line,
      lines_b := collect_other_lines oldt var ∪ collect_other_lines newt var,
      ctx_b := oldt.desc ++ " (spawn " ++ toString oldt.spawn_line ++ ") || " ++
        newt.desc ++ " (spawn " ++ toString newt.spawn_line ++ ")" }

/-! ### Engine (`engine.py`) -/

/-- Handle names awaited in a body: `{a.handle for a in awaits}`. -/
def awaited_handles (awaits : List Stmt) : Finset String :=
  (awaits.filterMap fun s =>
    match s with
    | .await _ h => some h
    | _ => none).toFinset

/-- The `for s in spawns` loop of `compute_escaping_threads`: a spawn
without a handle or with a locally awaited handle is skipped; otherwise
its footprint (substituted callee effect, or block effect) becomes an
escaping `ThreadInfo` with id `"{fname}:{handle}@{line}"`.  The list
produced by `list_spawns_awaits` only holds `Spawn` statements, so the
other cases are unreachable and skipped. -/
def escaping_spawns (prog : Program) (effects : EffMap) (fname : String)
    (fdef : FunctionDef) (awaited : Finset String) :
    List Stmt → Except AnalysisError (List ThreadInfo)
  | [] => .ok []
  | s :: rest =>
      match s with
      | .spawn line (some h) target =>
          if h ∈ awaited then escaping_spawns prog effects fname fdef awaited rest
          else do
            let td ← match target with
              | SpawnTarget.call func args _ => do
                  let callee_def ← getFn prog func
                  let ceff ← getEff effects func
                  pure (substitute_effect ceff callee_def args,
                    "escaped spawn " ++ func ++ "(...) from " ++ fname)
              | SpawnTarget.block body _ => do
                  let thr ← compute_effect_seq body prog effects fdef
                  pure (thr, "escaped spawn \x7bblock\x7d from " ++ fname)
            let tid := fname ++ ":" ++ h ++ "@" ++ toString line
            let tail ← escaping_spawns prog effects fname fdef awaited rest
            .ok (threadinfo_from_effect td.1 tid td.2 line :: tail)
      | _ => escaping_spawns prog effects fname fdef awaited rest

/-- The `for fname, fdef in prog.functions.items()` loop of
`compute_escaping_threads`. -/
def escape_entries (prog : Program) (effects : EffMap) :
    List (String × FunctionDef) →
    Except AnalysisError (List (String × List ThreadInfo))
  | [] => .ok []
  | (fname, fdef) :: rest => do
      let sa := list_spawns_awaits_seq fdef.body
      let threads ← escaping_spawns prog effects fname fdef (awaited_handles sa.2) sa.1
      let tail ← escape_entries prog effects rest
      .ok ((fname, threads) :: tail)

/-- Function `compute_escaping_threads`. -/
def compute_escaping_threads (prog : Program) (effects : EffMap) :
    Except AnalysisError (List (String × List ThreadInfo)) :=
  escape_entries prog effects prog.functions

mutual
/-- Function `analyze_stmt`: walk one statement, threading the concurrent
state and returning the set of race warnings it adds (the Python version
inserts them into a shared set, which is the same by commutativity of
set insertion).  Where the Python code formats a possibly-`None` mode
into a context string, `(mode_for ...).getD "None"` reproduces both the
string `"None"` and the (vacuous) conflict check. -/
def analyze_stmt (stmt : Stmt) (prog : Program) (effects : EffMap)
    (escapes : List (String × List ThreadInfo)) (current_func : FunctionDef)
    (state : ConcurState) : Except AnalysisError (ConcurState × Finset RaceWarning) :=
  match stmt with
  | .assign line target expr =>
      let env1 := if (alookup target state.handle_env).isSome
        then aupdate target ∅ state.handle_env else state.handle_env
      let st := ConcurState.mk state.active env1
      let reads := vars_in_expr expr
      let writes : Finset String := {target}
      let ws := (reads ∪ writes).biUnion fun v =>
        let m := (mode_for v reads writes).getD "None"
        (check_access st v m line
          (current_func.name ++ ":" ++ m ++ " at line " ++ toString line)).toFinset
      .ok (st, ws)
  | .assignCall line target func args => do
      let env1 := if (alookup target state.handle_env).isSome
        then aupdate target ∅ state.handle_env else state.handle_env
      let st := ConcurState.mk state.active env1
      let ws1 := (vars_in_args args).biUnion fun v =>
        (check_access st v "R" line
          (current_func.name ++ ":R(arg) at call site line " ++ toString line)).toFinset
      let callee_def ← getFn prog func
      let ceff ← getEff effects func
      let callee_eff := substitute_effect ceff callee_def args
      let ws2 := (callee_eff.reads ∪ callee_eff.writes).biUnion fun v =>
        let m := (mode_for v callee_eff.reads callee_eff.writes).getD "None"
        let lines := sitesFor callee_eff.read_sites v ∪ sitesFor callee_eff.write_sites v
        let lines2 := if lines = ∅ then {line} else lines
        (check_access st v m (lines2.min.untop' 0)
          (func ++ ":" ++ m ++ " during call from " ++ current_func.name ++
            " at line " ++ toString line)).toFinset
      let ws3 := (check_access st target "W" line
        (current_func.name ++ ":W(ret) at line " ++ toString line)).toFinset
      let active1 := ((alookup func escapes).getD []).foldl
        (fun acc t =>
          let base : Effect := ⟨t.reads, t.writes, t.read_sites, t.write_sites⟩
          let sub := substitute_effect base callee_def args
          let tid := "escaped:" ++ t.thread_id ++ "@call" ++ toString line
          aupdate tid (threadinfo_from_effect sub tid t.desc t.spawn_line) acc)
        st.active
      .ok (ConcurState.mk active1 env1, ws1 ∪ ws2 ∪ ws3)
  | .callStmt line func args => do
      let ws1 := (vars_in_args args).biUnion fun v =>
        (check_access state v "R" line
          (current_func.name ++ ":R(arg) at call site line " ++ toString line)).toFinset
      let callee_def ← getFn prog func
      let ceff ← getEff effects func
      let callee_eff := substitute_effect ceff callee_def args
      let ws2 := (callee_eff.reads ∪ callee_eff.writes).biUnion fun v =>
        let m := (mode_for v callee_eff.reads callee_eff.writes).getD "None"
        let lines := sitesFor callee_eff.read_sites v ∪ sitesFor callee_eff.write_sites v
        let lines2 := if lines = ∅ then {line} else lines
        (check_access state v m (lines2.min.untop' 0)
          (func ++ ":" ++ m ++ " during call from " ++ current_func.name ++
            " at line " ++ toString line)).toFinset
      let active1 := ((alookup func escapes).getD []).foldl
        (fun acc t =>
          let base : Effect := ⟨t.reads, t.writes, t.read_sites, t.write_sites⟩
          let sub := substitute_effect base callee_def args
          let tid := "escaped:" ++ t.thread_id ++ "@call" ++ toString line
          aupdate tid (threadinfo_from_effect sub tid t.desc t.spawn_line) acc)
        state.active
      .ok (ConcurState.mk active1 state.handle_env, ws1 ∪ ws2)
  | .spawn line handle target => do
      let env1 := match handle with
        | some h => if (alookup h state.handle_env).isSome
            then aupdate h ∅ state.handle_env else state.handle_env
        | none => state.handle_env
      let st := ConcurState.mk state.active env1
      let wsH := match handle with
        | some h => (check_access st h "W" line
            (current_func.name ++ ":W(handle) at spawn line " ++ toString line)).toFinset
        | none => (∅ : Finset RaceWarning)
      let r ← match target with
        | SpawnTarget.call func args _ => do
            let wsA := (vars_in_args args).biUnion fun v =>
              (check_access st v "R" line
                (current_func.name ++ ":R(arg) at spawn line " ++ toString line)).toFinset
            let callee_def ← getFn prog func
            let ceff ← getEff effects func
            pure (substitute_effect ceff callee_def args,
              "spawn " ++ func ++ "(...) in " ++ current_func.name,
              handle.getD func, wsA)
        | SpawnTarget.block body _ => do
            let thr ← compute_effect_seq body prog effects current_func
            pure (thr, "spawn \x7bblock\x7d in " ++ current_func.name,
              handle.getD "_anon", (∅ : Finset RaceWarning))
      let tid := current_func.name ++ ":" ++ r.2.2.1 ++ "@" ++ toString line
      let newt := threadinfo_from_effect r.1 tid r.2.1 line
      let wsT := st.active.foldl (fun acc p => acc ∪ check_thread_thread newt p.2 line) ∅
      let active1 := aupdate tid newt st.active
      let env2 := match handle with
        | some h => aupdate h (insert tid ((alookup h env1).getD ∅)) env1
        | none =>
            match target with
            | SpawnTarget.call func _ _ =>
                aupdate func (insert tid ((alookup func env1).getD ∅)) env1
            | SpawnTarget.block _ _ => env1
      .ok (ConcurState.mk active1 env2, wsH ∪ r.2.2.2 ∪ wsT)
  | .await _ handle =>
      let tids := (alookup handle state.handle_env).getD ∅
      .ok (ConcurState.mk (state.active.filter fun p => p.1 ∉ tids)
            (aupdate handle ∅ state.handle_env), ∅)
  | .ret line expr =>
      let ws := (vars_in_expr expr).biUnion fun v =>
        (check_access state v "R" line
          (current_func.name ++ ":R(return) at line " ++ toString line)).toFinset
      .ok (state, ws)
  | .seq _ stmts => analyze_seq stmts prog effects escapes current_func state
  | .ifS line cond thenS elseS => do
      let wsC := (vars_in_expr cond).biUnion fun v =>
        (check_access state v "R" line
          (current_func.name ++ ":R(if-cond) at line " ++ toString line)).toFinset
      let r1 ← analyze_stmt thenS prog effects escapes current_func state
      let r2 ← analyze_stmt elseS prog effects escapes current_func state
      .ok (join_states r1.1 r2.1, wsC ∪ r1.2 ∪ r2.2)
  | .whileS line cond body => do
      let wsC := (vars_in_expr cond).biUnion fun v =>
        (check_access state v "R" line
          (current_func.name ++ ":R(while-cond) at line " ++ toString line)).toFinset
      let r1 ← analyze_stmt body prog effects escapes current_func state
      .ok (join_states state r1.1, wsC ∪ r1.2)

/-- The `Seq` case of `analyze_stmt`: fold the walker left to right,
threading the state. -/
def analyze_seq (stmts : List Stmt) (prog : Program) (effects : EffMap)
    (escapes : List (String × List ThreadInfo)) (current_func : FunctionDef)
    (state : ConcurState) : Except AnalysisError (ConcurState × Finset RaceWarning) :=
  match stmts with
  | [] => .ok (state, ∅)
  | s :: r => do
      let r1 ← analyze_stmt s prog effects escapes current_func state
      let r2 ← analyze_seq r prog effects escapes current_func r1.1
      .ok (r2.1, r1.2 ∪ r2.2)
end

/-- The constraint-enforcement loop of `analyze_program`
(`for f in prog.functions.values(): enforce_no_spawn_await_in_if_while(f.body, False)`). -/
def enforce_program : List (String × FunctionDef) → Except AnalysisError Unit
  | [] => .ok ()
  | p :: r => do
      enforce_seq p.2.body false
      enforce_program r

/-- The walking loop of `analyze_program`: each function body is walked
from the empty concurrent state, accumulating warnings. -/
def analyze_functions (prog : Program) (effects : EffMap)
    (escapes : List (String × List ThreadInfo)) :
    List (String × FunctionDef) → Except AnalysisError (Finset RaceWarning)
  | [] => .ok ∅
  | p :: r => do
      let r1 ← analyze_seq p.2.body prog effects escapes p.2 ConcurState.empty
      let r2 ← analyze_functions prog effects escapes r
      .ok (r1.2 ∪ r2)

/-- Function `analyze_program`: enforce the spawn/await constraint,
compute effects and escaping threads, then walk every function body.
The Python function returns the warning set sorted by
(line, variable, kind); the set itself is returned here. -/
def analyze_program (prog : Program) : Except AnalysisError (Finset RaceWarning) := do
  enforce_program prog.functions
  let effects ← compute_function_effects prog
  let escapes ← compute_escaping_threads prog effects
  analyze_functions prog effects escapes prog.functions

/-! ### Predicates used to state the claims -/

/-- The error message of the constraint checker for an offence at `l`. -/
def constraint_msg (l : Nat) : String :=
  "spawn/await not allowed inside if/while (line " ++ toString l ++ ")"

mutual
/-- Lines of the `Spawn`/`Await` statements that the constraint checker
reports: those reached with the `inside_control` flag set, descending
through `Seq`, `If` and `While` (not into spawned blocks), in traversal
order. -/
def offending_lines (stmt : Stmt) (inside_control : Bool) : List Nat :=
  match stmt with
  | .spawn l _ _ => if inside_control then [l] else []
  | .await l _ => if inside_control then [l] else []
  | .seq _ stmts => offending_lines_seq stmts inside_control
  | .ifS _ _ thenS elseS => offending_lines thenS true ++ offending_lines elseS true
  | .whileS _ _ body => offending_lines body true
  | _ => []

/-- List version of `offending_lines`. -/
def offending_lines_seq (stmts : List Stmt) (inside_control : Bool) : List Nat :=
  match stmts with
  | [] => []
  | s :: r => offending_lines s inside_control ++ offending_lines_seq r inside_control
end

mutual
/-- Modelled from the claim for C1: a `Spawn` or `Await` occurs lexically
inside the branches of an `If` or the body of a `While`, at any nesting
depth "including through nested Sequences and inside the body of a
spawned block". -/
def spawn_await_in_control_spec (stmt : Stmt) (inside_control : Bool) : Bool :=
  match stmt with
  | .spawn _ _ t => inside_control ||
      (match t with
       | .call _ _ _ => false
       | .block body _ => spawn_await_in_control_spec_seq body inside_control)
  | .await _ _ => inside_control
  | .seq _ stmts => spawn_await_in_control_spec_seq stmts inside_control
  | .ifS _ _ thenS elseS =>
      spawn_await_in_control_spec thenS true || spawn_await_in_control_spec elseS true
  | .whileS _ _ body => spawn_await_in_control_spec body true
  | _ => false

/-- List version of `spawn_await_in_control_spec`. -/
def spawn_await_in_control_spec_seq (stmts : List Stmt) (inside_control : Bool) : Bool :=
  match stmts with
  | [] => false
  | s :: r => spawn_await_in_control_spec s inside_control ||
      spawn_await_in_control_spec_seq r inside_control
end

mutual
/-- A statement contains an `AssignCall`, `Call` or `SpawnCall` whose
callee name is not a key of the program's function table. -/
def has_missing_callee (prog : Program) : Stmt → Bool
  | .assignCall _ _ func _ => (alookup func prog.functions).isNone
  | .callStmt _ func _ => (alookup func prog.functions).isNone
  | .spawn _ _ t => has_missing_callee_target prog t
  | .ifS _ _ thenS elseS =>
      has_missing_callee prog thenS || has_missing_callee prog elseS
  | .whileS _ _ body => has_missing_callee prog body
  | .seq _ stmts => has_missing_callee_seq prog stmts
  | _ => false

/-- Spawn-target version of `has_missing_callee`. -/
def has_missing_callee_target (prog : Program) : SpawnTarget → Bool
  | .call func _ _ => (alookup func prog.functions).isNone
  | .block body _ => has_missing_callee_seq prog body

/-- List version of `has_missing_callee`. -/
def has_missing_callee_seq (prog : Program) : List Stmt → Bool
  | [] => false
  | s :: r => has_missing_callee prog s || has_missing_callee_seq prog r
end

/-- Componentwise inclusion of effects: the reads, writes and both site
maps of the first are contained in those of the second. -/
def EffLe (a b : Effect) : Prop :=
  a.reads ⊆ b.reads ∧ a.writes ⊆ b.writes ∧
  a.read_sites ⊆ b.read_sites ∧ a.write_sites ⊆ b.write_sites

/-- Pointwise growth of summary maps: every stored summary is still
stored and has only grown. -/
def MapLe (a b : EffMap) : Prop :=
  ∀ f e, alookup f a = some e → ∃ e2, alookup f b = some e2 ∧ EffLe e e2

/-- The `Effect` invariant of the spec: a variable is read iff its entry
in the read-site map is nonempty, and symmetrically for writes. -/
def EffWF (e : Effect) : Prop :=
  (∀ v, v ∈ e.reads ↔ sitesFor e.read_sites v ≠ ∅) ∧
  (∀ v, v ∈ e.writes ↔ sitesFor e.write_sites v ≠ ∅)

/-- Every function of the program has a summary in the map (invariant of
the fixpoint iteration, under which a `KeyError` can only name an
undefined function). -/
def KeyCompat (prog : Program) (effects : EffMap) : Prop :=
  ∀ f, (alookup f prog.functions).isSome → (alookup f effects).isSome

/-! ### Concrete programs of the spec scenarios -/

/-- Scenario 3 of the spec ("Await clears the race"):
`main() { h = spawn f(); await h; x = y; }`, `f() { y = 1; }`. -/
def prog_scenario3 : Program :=
  ⟨[("main", ⟨"main", [],
      [.spawn 2 (some "h") (.call "f" [] 2),
       .await 3 "h",
       .assign 4 "x" (.var 4 "y")], 1⟩),
    ("f", ⟨"f", [], [.assign 6 "y" (.num 6 1)], 6⟩)]⟩

/-- Scenario 5 of the spec ("Escaping thread"):
`main() { start(); x = y; }`, `start() { h = spawn worker(); }`,
`worker() { y = 42; }`. -/
def prog_scenario5 : Program :=
  ⟨[("main", ⟨"main", [], [.callStmt 2 "start" [], .assign 3 "x" (.var 3 "y")], 1⟩),
    ("start", ⟨"start", [], [.spawn 6 (some "h") (.call "worker" [] 6)], 5⟩),
    ("worker", ⟨"worker", [], [.assign 9 "y" (.num 9 42)], 8⟩)]⟩

/-- Scenario 6 of the spec ("spawn/await inside if is rejected"):
`main() { if (c) spawn f(); else return 0; }`, `f() { }`. -/
def prog_scenario6 : Program :=
  ⟨[("main", ⟨"main", [],
      [.ifS 1 (.var 1 "c")
         (.seq 1 [.spawn 1 none (.call "f" [] 1)])
         (.seq 1 [.ret 1 (.num 1 0)])], 1⟩),
    ("f", ⟨"f", [], [], 2⟩)]⟩

/-- A program whose only spawn/await inside an `If` is reached through
the body of a spawned block:
`main() { spawn { if (c) { spawn f(); } else { } }; }`, `f() { }`. -/
def prog_spawn_in_block_if : Program :=
  ⟨[("main", ⟨"main", [],
      [.spawn 2 none (.block
         [.ifS 3 (.var 3 "c")
            (.seq 3 [.spawn 4 none (.call "f" [] 4)])
            (.seq 5 [])] 2)], 1⟩),
    ("f", ⟨"f", [], [], 8⟩)]⟩

/-- Handle-shadowing program:
`main() { h = spawn f(); h = 0; await h; x = y; }`, `f() { y = 1; }`. -/
def prog_shadow : Program :=
  ⟨[("main", ⟨"main", [],
      [.spawn 2 (some "h") (.call "f" [] 2),
       .assign 3 "h" (.num 3 0),
       .await 4 "h",
       .assign 5 "x" (.var 5 "y")], 1⟩),
    ("f", ⟨"f", [], [.assign 8 "y" (.num 8 1)], 7⟩)]⟩

/-- A program with an undefined callee inside a rejected `if`:
`main() { if (c) { await h; } else { g(); } }` with `g` undefined. -/
def prog_missing_and_violation : Program :=
  ⟨[("main", ⟨"main", [],
      [.ifS 2 (.var 2 "c")
         (.seq 2 [.await 3 "h"])
         (.seq 4 [.callStmt 5 "g" []])], 1⟩)]⟩

/-- A constraint-clean program with an undefined callee:
`main() { g(); }` with `g` undefined. -/
def prog_missing_only : Program :=
  ⟨[("main", ⟨"main", [], [.callStmt 2 "g" []], 1⟩)]⟩

/-- A one-function program with an empty body, used to instantiate the
fixpoint theorems. -/
def prog_trivial : Program := ⟨[("main", ⟨"main", [], [], 1⟩)]⟩

/-- The initial all-empty summary map of `prog_trivial`. -/
def effmap_trivial : EffMap := [("main", Effect.empty)]

/-! ### Association-list lemmas -/

theorem alookup_aupdate_self {β : Type} (k : String) (v : β) (l : List (String × β)) :
    alookup k (aupdate k v l) = some v := by
  induction l with
  | nil => simp [aupdate, alookup]
  | cons p r ih =>
      by_cases h : k = p.1
      · simp [aupdate, h, alookup]
      · simp [aupdate, h, alookup, ih]

theorem alookup_aupdate_ne {β : Type} (k k2 : String) (v : β) (l : List (String × β))
    (h : k2 ≠ k) : alookup k2 (aupdate k v l) = alookup k2 l := by
  induction l with
  | nil => simp [aupdate, alookup, h]
  | cons p r ih =>
      by_cases hk : k = p.1
      · subst hk
        simp [aupdate, alookup, h]
      · simp [aupdate, hk, alookup, ih]

theorem alookup_filter_bool {β : Type} (f : String → Bool) (l : List (String × β))
    (k : String) :
    alookup k (l.filter fun p => f p.1) = if f k then alookup k l else none := by
  induction l with
  | nil => simp [alookup]
  | cons p r ih =>
      rcases hp : f p.1 with _ | _
      · by_cases hk : k = p.1
        · subst hk
          simp [List.filter_cons, hp, ih, alookup]
        · simp [List.filter_cons, hp, ih, alookup, hk]
      · by_cases hk : k = p.1
        · subst hk
          simp [List.filter_cons, hp, alookup]
        · simp [List.filter_cons, hp, alookup, hk, ih]

theorem alookup_filter_not_mem {β : Type} (tids : Finset String)
    (l : List (String × β)) (k : String) :
    alookup k (l.filter fun p => p.1 ∉ tids) =
      if k ∈ tids then none else alookup k l := by
  have h := alookup_filter_bool (fun s => decide (s ∉ tids)) l k
  by_cases hk : k ∈ tids <;> simpa [hk] using h

theorem alookup_isSome_aupdate {β : Type} (k k2 : String) (v : β)
    (l : List (String × β)) (h : (alookup k2 l).isSome) :
    (alookup k2 (aupdate k v l)).isSome := by
  by_cases hk : k2 = k
  · subst hk
    simp [alookup_aupdate_self]
  · rwa [alookup_aupdate_ne _ _ _ _ hk]

theorem alookup_mem {β : Type} (k : String) (v : β) (l : List (String × β))
    (h : alookup k l = some v) : (k, v) ∈ l := by
  induction l with
  | nil => simp [alookup] at h
  | cons p r ih =>
      by_cases hk : k = p.1
      · subst hk
        simp [alookup] at h
        simp [← h]
      · simp [alookup, hk] at h
        simp [ih h]

theorem mem_alookup_isSome {β : Type} (p : String × β) (l : List (String × β))
    (h : p ∈ l) : (alookup p.1 l).isSome := by
  induction l with
  | nil => simp at h
  | cons q r ih =>
      by_cases hk : p.1 = q.1
      · simp [alookup, hk]
      · rcases List.mem_cons.1 h with h1 | h1
        · subst h1
          simp at hk
        · simp [alookup, hk, ih h1]

theorem alookup_map_const {β γ : Type} (l : List (String × β)) (c : γ) (k : String) :
    alookup k (l.map fun p => (p.1, c)) = if (alookup k l).isSome then some c else none := by
  induction l with
  | nil => simp [alookup]
  | cons p r ih =>
      by_cases hk : k = p.1
      · simp [alookup, hk]
      · simp [alookup, hk, ih]

theorem except_bind_ok {ε α β : Type} (a : α) (f : α → Except ε β) :
    (Except.ok a >>= f) = f a := rfl

theorem except_bind_error {ε α β : Type} (e : ε) (f : α → Except ε β) :
    ((Except.error e : Except ε α) >>= f) = Except.error e := rfl

theorem alookup_isSome_foldl {α β : Type} (ts : List α)
    (g : List (String × β) → α → List (String × β))
    (hg : ∀ acc t k, (alookup k acc).isSome → (alookup k (g acc t)).isSome)
    (acc : List (String × β)) (k : String) (h : (alookup k acc).isSome) :
    (alookup k (ts.foldl g acc)).isSome := by
  induction ts generalizing acc with
  | nil => simpa using h
  | cons t r ih => exact ih _ (hg _ _ _ h)

/-- Lookup of a handle right after the walker has reset its binding
(`if stmt.target in state.handle_env: state.handle_env[stmt.target] = set()`):
the bound thread-id set is empty either way. -/
theorem reset_env_getD (env : List (String × Finset String)) (h : String) :
    (alookup h (if (alookup h env).isSome then aupdate h ∅ env else env)).getD ∅ = ∅ := by
  by_cases hb : (alookup h env).isSome
  · simp [hb, alookup_aupdate_self]
  · rcases hx : alookup h env with _ | s
    · simp [hb, hx]
    · rw [hx] at hb
      simp at hb

/-! ### Claim theorems -/

/-- C2: for the scenario-3 program `main() { h = spawn f(); await h; x = y; }`,
`f() { y = 1; }`, `analyze_program` returns the empty warning set: the
await removes the thread bound to `h` from the active set, so the read
of `y` afterwards emits no race warning. -/
theorem c2_await_clears_race : analyze_program prog_scenario3 = .ok ∅ := by decide

/-- C3: for the scenario-5 program `main() { start(); x = y; }`,
`start() { h = spawn worker(); }`, `worker() { y = 42; }`,
`analyze_program` emits a warning with variable `y` whose `line_a` is
the line of the read of `y` in `main` (line 3), because the unawaited
spawn of `worker` escapes `start` and is installed as a live thread at
the call site. -/
theorem c3_escaping_thread_warning :
    ∃ w, analyze_program prog_scenario5 = .ok {w} ∧ w.var = "y" ∧ w.line_a = 3 := by
  refine ⟨⟨"y", "R vs T", 3, "main:R at line 3", {9},
    "escaped spawn worker(...) from start (spawn line 6)"⟩, by decide, rfl, rfl⟩

/-- Unfolding of the `Await` case of the walker. -/
theorem analyze_stmt_await (prog : Program) (effects : EffMap)
    (escapes : List (String × List ThreadInfo)) (cf : FunctionDef)
    (state : ConcurState) (line : Nat) (h : String) :
    analyze_stmt (.await line h) prog effects escapes cf state =
      .ok (ConcurState.mk
        (state.active.filter fun p => p.1 ∉ (alookup h state.handle_env).getD ∅)
        (aupdate h ∅ state.handle_env), ∅) := rfl

/-- C4: walking `Await(h)` yields a state in which exactly the thread ids
of `handle_env[h]` have been removed from `active`, the binding of `h`
is cleared to the empty set, every active thread whose id is not in
`handle_env[h]` and every binding of a handle other than `h` are
unchanged, and the `Await` itself emits no warnings. -/
theorem c4_await_frame (prog : Program) (effects : EffMap)
    (escapes : List (String × List ThreadInfo)) (cf : FunctionDef)
    (state : ConcurState) (line : Nat) (h : String) :
    ∃ st2, analyze_stmt (.await line h) prog effects escapes cf state = .ok (st2, ∅) ∧
      (∀ k, alookup k st2.active =
        if k ∈ (alookup h state.handle_env).getD ∅ then none
        else alookup k state.active) ∧
      alookup h st2.handle_env = some ∅ ∧
      ∀ g, g ≠ h → alookup g st2.handle_env = alookup g state.handle_env := by
  refine ⟨_, analyze_stmt_await prog effects escapes cf state line h, ?_, ?_, ?_⟩
  · intro k
    exact alookup_filter_not_mem _ _ _
  · exact alookup_aupdate_self _ _ _
  · intro g hg
    exact alookup_aupdate_ne _ _ _ _ hg

/-- Witness for C4 at a concrete state with two active threads, one of
them bound to the awaited handle. -/
theorem c4_await_frame_witness :
    ∃ st2, analyze_stmt (.await 3 "h") ⟨[]⟩ [] [] ⟨"m", [], [], 1⟩
        ⟨[("t1", ⟨"t1", "d1", 2, ∅, ∅, ∅, ∅⟩), ("t2", ⟨"t2", "d2", 3, ∅, ∅, ∅, ∅⟩)],
         [("h", {"t1"}), ("g", {"t9"})]⟩ = .ok (st2, ∅) ∧
      alookup "t1" st2.active = none ∧
      alookup "t2" st2.active = some ⟨"t2", "d2", 3, ∅, ∅, ∅, ∅⟩ ∧
      alookup "h" st2.handle_env = some ∅ ∧
      alookup "g" st2.handle_env = some {"t9"} := by
  obtain ⟨st2, he, h1, h2, h3⟩ :=
    c4_await_frame ⟨[]⟩ [] [] ⟨"m", [], [], 1⟩
      ⟨[("t1", ⟨"t1", "d1", 2, ∅, ∅, ∅, ∅⟩), ("t2", ⟨"t2", "d2", 3, ∅, ∅, ∅, ∅⟩)],
       [("h", {"t1"}), ("g", {"t9"})]⟩ 3 "h"
  refine ⟨st2, he, ?_, ?_, h2, ?_⟩
  · have := h1 "t1"
    simpa [alookup] using this
  · have := h1 "t2"
    simpa [alookup] using this
  · have := h3 "g" (by decide)
    simpa [alookup] using this

/-- C5: overwriting a handle by a plain `Assign` (or `AssignCall`) resets
its binding in `handle_env` to the empty set, so a subsequent `await h`
removes no thread from `active`: after `h = e; await h;` the active map
is exactly the incoming one, and after `x = f(...); await h;` (with
`x = h`) every previously active thread id is still active; the
previously spawned thread itself stays in `active` and still triggers an
access-vs-thread warning afterwards, as in
`main() { h = spawn f(); h = 0; await h; x = y; }`, `f() { y = 1; }`. -/
theorem c5_handle_shadowing :
    (∀ (prog : Program) (effects : EffMap) (escapes : List (String × List ThreadInfo))
        (cf : FunctionDef) (state : ConcurState) (l1 l2 : Nat) (h : String) (e : Expr),
      ∃ st2 ws,
        analyze_seq [.assign l1 h e, .await l2 h] prog effects escapes cf state =
          .ok (st2, ws) ∧
        st2.active = state.active ∧ alookup h st2.handle_env = some ∅) ∧
    (∀ (prog : Program) (effects : EffMap) (escapes : List (String × List ThreadInfo))
        (cf : FunctionDef) (state : ConcurState) (l1 l2 : Nat) (h f : String)
        (args : List Expr) (st2 : ConcurState) (ws : Finset RaceWarning),
      analyze_seq [.assignCall l1 h f args, .await l2 h] prog effects escapes cf state =
          .ok (st2, ws) →
      (∀ k, (alookup k state.active).isSome → (alookup k st2.active).isSome) ∧
        alookup h st2.handle_env = some ∅) ∧
    analyze_program prog_shadow =
      .ok {⟨"y", "R vs T", 5, "main:R at line 5", {8}, "spawn f(...) in main (spawn line 2)"⟩} := by
  refine ⟨?_, ?_, by decide⟩
  · intro prog effects escapes cf state l1 l2 h e
    refine ⟨_, _, rfl, ?_, alookup_aupdate_self _ _ _⟩
    simp only [reset_env_getD]
    simp
  · intro prog effects escapes cf state l1 l2 h f args st2 ws hok
    simp only [analyze_seq, analyze_stmt, getFn, getEff] at hok
    rcases hgf : alookup f prog.functions with _ | fd
    · rw [hgf] at hok
      simp [except_bind_error] at hok
    · rw [hgf] at hok
      rcases hge : alookup f effects with _ | fe
      · rw [hge] at hok
        simp [except_bind_ok, except_bind_error] at hok
      · rw [hge] at hok
        simp only [except_bind_ok] at hok
        rw [Except.ok.injEq, Prod.mk.injEq] at hok
        obtain ⟨hst, _⟩ := hok
        subst hst
        constructor
        · intro k hk
          simp only [reset_env_getD, Finset.not_mem_empty, not_false_iff, decide_True,
            List.filter_true]
          refine alookup_isSome_foldl _ _ ?_ _ _ hk
          intro acc t k2 h2
          exact alookup_isSome_aupdate _ _ _ _ h2
        · exact alookup_aupdate_self _ _ _

/-- Witness for C5: the assign-then-await part at a concrete state with
one bound thread, and the call-then-await part at a concrete run. -/
theorem c5_handle_shadowing_witness :
    (∃ st2 ws,
      analyze_seq [.assign 1 "h" (.num 1 0), .await 2 "h"] ⟨[]⟩ [] [] ⟨"m", [], [], 1⟩
          ⟨[("t0", ⟨"t0", "d", 1, ∅, ∅, ∅, ∅⟩)], [("h", {"t0"})]⟩ = .ok (st2, ws) ∧
        st2.active = [("t0", ⟨"t0", "d", 1, ∅, ∅, ∅, ∅⟩)] ∧
        alookup "h" st2.handle_env = some ∅) ∧
    ((alookup "t0"
        (ConcurState.mk [("t0", ⟨"t0", "d", 1, ∅, ∅, ∅, ∅⟩)] [("h", ∅)]).active).isSome ∧
      alookup "h"
        (ConcurState.mk [("t0", ⟨"t0", "d", 1, ∅, ∅, ∅, ∅⟩)] [("h", ∅)]).handle_env =
          some ∅) := by
  constructor
  · exact c5_handle_shadowing.1 ⟨[]⟩ [] [] ⟨"m", [], [], 1⟩
      ⟨[("t0", ⟨"t0", "d", 1, ∅, ∅, ∅, ∅⟩)], [("h", {"t0"})]⟩ 1 2 "h" (.num 1 0)
  · have H := c5_handle_shadowing.2.1 ⟨[("f", ⟨"f", [], [], 1⟩)]⟩ [("f", Effect.empty)]
      [] ⟨"m", [], [], 1⟩ ⟨[("t0", ⟨"t0", "d", 1, ∅, ∅, ∅, ∅⟩)], []⟩ 1 2 "h" "f" []
      (ConcurState.mk [("t0", ⟨"t0", "d", 1, ∅, ∅, ∅, ∅⟩)] [("h", ∅)]) ∅ (by decide)
    exact ⟨H.1 "t0" (by decide), H.2⟩

mutual
/-- The constraint checker succeeds iff no offence is reachable (through
`Seq`, `If`, `While`), and otherwise reports the first offending line in
traversal order. -/
theorem enforce_eq_stmt (stmt : Stmt) (b : Bool) :
    enforce_no_spawn_await_in_if_while stmt b =
      match offending_lines stmt b with
      | [] => .ok ()
      | l :: _ => .error (.valueError (constraint_msg l)) := by
  cases stmt with
  | assign l t e => rfl
  | assignCall l t f a => rfl
  | callStmt l f a => rfl
  | ret l e => rfl
  | spawn l h t =>
      cases b <;> simp [enforce_no_spawn_await_in_if_while, offending_lines, constraint_msg]
  | await l h =>
      cases b <;> simp [enforce_no_spawn_await_in_if_while, offending_lines, constraint_msg]
  | seq l stmts =>
      have h := enforce_eq_seq stmts b
      simpa [enforce_no_spawn_await_in_if_while, offending_lines] using h
  | ifS l c thenS elseS =>
      have ha := enforce_eq_stmt thenS true
      have hb := enforce_eq_stmt elseS true
      rcases hA : offending_lines thenS true with _ | ⟨la, ra⟩
      · rw [hA] at ha
        simp only [enforce_no_spawn_await_in_if_while, offending_lines, hA, ha,
          List.nil_append, except_bind_ok]
        exact hb
      · rw [hA] at ha
        simp only [enforce_no_spawn_await_in_if_while, offending_lines, hA, ha,
          List.cons_append, except_bind_error]
  | whileS l c body =>
      have h := enforce_eq_stmt body true
      simpa [enforce_no_spawn_await_in_if_while, offending_lines] using h

/-- List version of `enforce_eq_stmt`. -/
theorem enforce_eq_seq (stmts : List Stmt) (b : Bool) :
    enforce_seq stmts b =
      match offending_lines_seq stmts b with
      | [] => .ok ()
      | l :: _ => .error (.valueError (constraint_msg l)) := by
  cases stmts with
  | nil => rfl
  | cons s r =>
      have ha := enforce_eq_stmt s b
      have hb := enforce_eq_seq r b
      rcases hA : offending_lines s b with _ | ⟨la, ra⟩
      · rw [hA] at ha
        simp only [enforce_seq, offending_lines_seq, hA, ha, List.nil_append, except_bind_ok]
        exact hb
      · rw [hA] at ha
        simp only [enforce_seq, offending_lines_seq, hA, ha, List.cons_append,
          except_bind_error]
end

/-- The constraint loop over the functions of a program reports the first
offending line across the program, in order. -/
theorem enforce_program_eq (fns : List (String × FunctionDef)) :
    enforce_program fns =
      match fns.flatMap (fun p => offending_lines_seq p.2.body false) with
      | [] => .ok ()
      | l :: _ => .error (.valueError (constraint_msg l)) := by
  induction fns with
  | nil => rfl
  | cons p r ih =>
      have ha := enforce_eq_seq p.2.body false
      rcases hA : offending_lines_seq p.2.body false with _ | ⟨la, ra⟩
      · rw [hA] at ha
        simp only [enforce_program, List.flatMap_cons, hA, ha, List.nil_append, except_bind_ok]
        exact ih
      · rw [hA] at ha
        simp only [enforce_program, List.flatMap_cons, hA, ha, List.cons_append,
          except_bind_error]

/-- Counterexample for C1 as stated: in
`main() { spawn { if (c) { spawn f(); } else { } }; }`, `f() { }` a
`Spawn` occurs inside an `If` branch reached through the body of a
spawned block, yet `analyze_program` raises no error and returns the
empty warning set — the constraint checker does not descend into
spawned-block bodies. -/
theorem c1_counterexample_spawn_block :
    (∃ p ∈ prog_spawn_in_block_if.functions,
      spawn_await_in_control_spec_seq p.2.body false = true) ∧
    analyze_program prog_spawn_in_block_if = .ok ∅ := by
  constructor
  · exact ⟨_, List.mem_cons_self _ _, by decide⟩
  · decide

/-- C1 (amended): for every program in which a `Spawn` or `Await` occurs
lexically inside an `If` branch or a `While` body reached through nested
`Seq`, `If` and `While` only — the checker does not look inside spawned
blocks — `analyze_program` raises `ValueError` naming the line of an
offending statement (and hence produces no warning list). -/
theorem c1_constraint_enforcement (prog : Program)
    (h : (prog.functions.flatMap fun p => offending_lines_seq p.2.body false) ≠ []) :
    ∃ l, l ∈ (prog.functions.flatMap fun p => offending_lines_seq p.2.body false) ∧
      analyze_program prog = .error (.valueError (constraint_msg l)) := by
  rcases hL : prog.functions.flatMap (fun p => offending_lines_seq p.2.body false) with _ | ⟨l, r⟩
  · exact absurd hL h
  · refine ⟨l, by simp [hL], ?_⟩
    have he : enforce_program prog.functions = .error (.valueError (constraint_msg l)) := by
      rw [enforce_program_eq, hL]
    simp only [analyze_program, he, except_bind_error]

/-- Witness for C1 at spec scenario 6:
`main() { if (c) spawn f(); else return 0; }` is rejected with the
spawn's line. -/
theorem c1_constraint_enforcement_witness :
    (prog_scenario6.functions.flatMap fun p => offending_lines_seq p.2.body false) ≠ [] ∧
    analyze_program prog_scenario6 = .error (.valueError (constraint_msg 1)) := by
  obtain ⟨l, hl, he⟩ := c1_constraint_enforcement prog_scenario6 (by decide)
  have hone : (prog_scenario6.functions.flatMap fun p => offending_lines_seq p.2.body false) =
      [1] := by decide
  rw [hone] at hl
  have : l = 1 := by simpa using hl
  subst this
  exact ⟨by decide, he⟩

/-- The boolean conflict predicate of `conflicts`, as a proposition. -/
theorem conflicts_eq_true (mode : String) (t : ThreadInfo) (var : String) :
    conflicts mode t var = true ↔
      ((mode = "R" ∧ var ∈ t.writes) ∨
        ((mode = "W" ∨ mode = "RW") ∧ (var ∈ t.reads ∨ var ∈ t.writes))) := by
  unfold conflicts
  by_cases h1 : mode = "R"
  · simp [h1, show ¬(("R" : String) = "W") from by decide,
      show ¬(("R" : String) = "RW") from by decide]
  · by_cases h2 : mode = "W" ∨ mode = "RW"
    · simp [h1, h2, or_comm]
    · simp [h1, h2]

/-- C7: `check_access` emits a warning against an active thread `t` iff
the conflict predicate holds (`mode = R` and `v ∈ t.writes`, or
`mode ∈ {W, RW}` and `v` in `t.reads ∪ t.writes`); a read-only access
never warns against a thread that only reads the variable; and the
other-lines set of an emitted warning is the thread's read/write site
lines for the variable, falling back to the spawn line when that set is
empty (for threads satisfying the `Effect` invariant). -/
theorem c7_check_access_characterization :
    (∀ (state : ConcurState) (var mode : String) (line : Nat) (ctx : String)
        (w : RaceWarning),
      w ∈ check_access state var mode line ctx ↔
        ∃ p, p ∈ state.active ∧
          ((mode = "R" ∧ var ∈ p.2.writes) ∨
            ((mode = "W" ∨ mode = "RW") ∧ (var ∈ p.2.reads ∨ var ∈ p.2.writes))) ∧
          w = ⟨var, mode ++ " vs T", line, ctx, collect_other_lines p.2 var,
            p.2.desc ++ " (spawn line " ++ toString p.2.spawn_line ++ ")"⟩) ∧
    (∀ (state : ConcurState) (var : String) (line : Nat) (ctx : String),
      (∀ p ∈ state.active, var ∉ p.2.writes) →
      check_access state var "R" line ctx = []) ∧
    (∀ (t : ThreadInfo) (var : String),
      (var ∈ t.reads ↔ sitesFor t.read_sites var ≠ ∅) →
      (var ∈ t.writes ↔ sitesFor t.write_sites var ≠ ∅) →
      collect_other_lines t var =
        if sitesFor t.write_sites var ∪ sitesFor t.read_sites var = ∅ then {t.spawn_line}
        else sitesFor t.write_sites var ∪ sitesFor t.read_sites var) := by
  refine ⟨?_, ?_, ?_⟩
  · intro state var mode line ctx w
    simp only [check_access, List.mem_filterMap]
    constructor
    · rintro ⟨p, hp, hf⟩
      by_cases hc : conflicts mode p.2 var = true
      · rw [if_pos hc] at hf
        exact ⟨p, hp, (conflicts_eq_true _ _ _).1 hc, (Option.some_injective _ hf).symm⟩
      · rw [if_neg hc] at hf
        exact absurd hf (by simp)
    · rintro ⟨p, hp, hc, rfl⟩
      exact ⟨p, hp, by rw [if_pos ((conflicts_eq_true _ _ _).2 hc)]⟩
  · intro state var line ctx h
    rw [check_access, List.filterMap_eq_nil_iff]
    intro p hp
    have : conflicts "R" p.2 var = false := by
      simp [conflicts, h p hp]
    simp [this]
  · intro t var hr hw
    have hW : (if var ∈ t.writes then sitesFor t.write_sites var else ∅) =
        sitesFor t.write_sites var := by
      by_cases hwm : var ∈ t.writes
      · simp [hwm]
      · have : sitesFor t.write_sites var = ∅ := not_ne_iff.mp fun hne => hwm (hw.mpr hne)
        simp [hwm, this]
    have hR : (if var ∈ t.reads then sitesFor t.read_sites var else ∅) =
        sitesFor t.read_sites var := by
      by_cases hrm : var ∈ t.reads
      · simp [hrm]
      · have : sitesFor t.read_sites var = ∅ := not_ne_iff.mp fun hne => hrm (hr.mpr hne)
        simp [hrm, this]
    simp only [collect_other_lines, hW, hR]

/-- Witness for C7: an emitted warning, an empty result for a read-only
access against a read-only thread, and the other-lines fallback shape,
at concrete inputs. -/
theorem c7_check_access_witness :
    (⟨"y", "R vs T", 3, "c", {8}, "d (spawn line 2)"⟩ : RaceWarning) ∈
      check_access ⟨[("t", ⟨"t", "d", 2, ∅, {"y"}, ∅, {("y", 8)}⟩)], []⟩ "y" "R" 3 "c" ∧
    check_access ⟨[("t", ⟨"t", "d", 2, {"y"}, ∅, {("y", 8)}, ∅⟩)], []⟩ "y" "R" 3 "c" = [] ∧
    collect_other_lines ⟨"t", "d", 2, ∅, {"y"}, ∅, {("y", 8)}⟩ "y" =
      (if sitesFor ({("y", 8)} : Finset (String × Nat)) "y" ∪
          sitesFor (∅ : Finset (String × Nat)) "y" = ∅ then {2}
        else sitesFor ({("y", 8)} : Finset (String × Nat)) "y" ∪
          sitesFor (∅ : Finset (String × Nat)) "y") := by
  refine ⟨?_, ?_, ?_⟩
  · exact (c7_check_access_characterization.1 _ _ _ _ _ _).mpr
      ⟨("t", ⟨"t", "d", 2, ∅, {"y"}, ∅, {("y", 8)}⟩), List.mem_cons_self _ _,
        Or.inl ⟨rfl, by decide⟩, by decide⟩
  · exact c7_check_access_characterization.2.1 _ "y" 3 "c" (by decide)
  · exact c7_check_access_characterization.2.2
      ⟨"t", "d", 2, ∅, {"y"}, ∅, {("y", 8)}⟩ "y" (by decide) (by decide)

/-- Membership in the line set stored for a variable is membership of the
pair in the site map. -/
theorem mem_sitesFor (sites : Finset (String × Nat)) (v : String) (ln : Nat) :
    ln ∈ sitesFor sites v ↔ (v, ln) ∈ sites := by
  simp only [sitesFor, Finset.mem_image, Finset.mem_filter]
  constructor
  · rintro ⟨⟨p1, p2⟩, ⟨hm, h1⟩, h2⟩
    simp only at h1 h2
    subst h1
    subst h2
    exact hm
  · intro h
    exact ⟨(v, ln), ⟨h, rfl⟩, rfl⟩

theorem alookup_enum_foldl_not_mem (args : List Expr) (ps : List String) :
    ∀ (n : Nat) (acc : List (String × Finset String)) (v : String), v ∉ ps →
    alookup v ((List.enumFrom n ps).foldl
      (fun m pi => aupdate pi.2 ((args.get? pi.1).elim ∅ vars_in_expr) m) acc) =
      alookup v acc := by
  induction ps with
  | nil => intro n acc v h; rfl
  | cons p r ih =>
      intro n acc v h
      simp only [List.enumFrom, List.foldl_cons]
      rw [ih (n + 1) _ v (fun hm => h (List.mem_cons_of_mem _ hm)),
        alookup_aupdate_ne _ _ _ _
          (fun he => h (by rw [he]; exact List.mem_cons_self _ _))]

theorem alookup_enum_foldl_mem (args : List Expr) (ps : List String) :
    ∀ (n : Nat) (acc : List (String × Finset String)) (v : String) (i : Nat),
    ps.Nodup → ps.get? i = some v →
    alookup v ((List.enumFrom n ps).foldl
      (fun m pi => aupdate pi.2 ((args.get? pi.1).elim ∅ vars_in_expr) m) acc) =
      some ((args.get? (n + i)).elim ∅ vars_in_expr) := by
  induction ps with
  | nil =>
      intro n acc v i hnd hi
      simp at hi
  | cons p r ih =>
      intro n acc v i hnd hi
      cases i with
      | zero =>
          simp only [List.get?] at hi
          have hv : v = p := by
            injection hi with h
            exact h.symm
          subst hv
          have hnp : v ∉ r := (List.nodup_cons.1 hnd).1
          simp only [List.enumFrom, List.foldl_cons]
          rw [alookup_enum_foldl_not_mem args r (n + 1) _ v hnp, alookup_aupdate_self]
          rfl
      | succ j =>
          have hi2 : r.get? j = some v := by simpa [List.get?] using hi
          simp only [List.enumFrom, List.foldl_cons]
          rw [ih (n + 1) _ v j (List.nodup_cons.1 hnd).2 hi2]
          have : n + 1 + j = n + (j + 1) := by omega
          rw [this]

/-- A variable that is not a formal parameter is mapped to itself by the
default of `mapping.get(v, {v})`. -/
theorem targetsOf_not_mem (params : List String) (args : List Expr) (v : String)
    (h : v ∉ params) : targetsOf (paramMap params args) v = {v} := by
  unfold targetsOf paramMap
  rw [show params.enum = List.enumFrom 0 params from rfl,
    alookup_enum_foldl_not_mem args params 0 [] v h]
  rfl

/-- A formal parameter (with distinct formals) is mapped to the variables
of its positional actual argument, empty when the actual is missing. -/
theorem targetsOf_mem (params : List String) (args : List Expr) (v : String) (i : Nat)
    (hnd : params.Nodup) (hi : params.get? i = some v) :
    targetsOf (paramMap params args) v = (args.get? i).elim ∅ vars_in_expr := by
  unfold targetsOf paramMap
  rw [show params.enum = List.enumFrom 0 params from rfl,
    alookup_enum_foldl_mem args params 0 [] v i hnd hi]
  simp

/-- C8: `substitute_effect` turns every access of a formal parameter at
position `i` into an access, at the same source lines, of each variable
of `actual_args[i]`; a formal whose actual has no variables or whose
position has no actual contributes nothing; a non-formal variable keeps
its own name and lines; and the reads/writes sets are exactly the
variables of the produced site pairs.  Formals are assumed distinct so
that "position i" is well defined. -/
theorem c8_substitute_effect (callee : Effect) (callee_def : FunctionDef)
    (args : List Expr) (hnd : callee_def.params.Nodup) :
    (∀ tv ln, (tv, ln) ∈ (substitute_effect callee callee_def args).read_sites ↔
      ∃ v, v ∈ callee.reads ∧ (v, ln) ∈ callee.read_sites ∧
        ((∃ i, callee_def.params.get? i = some v ∧
            tv ∈ (args.get? i).elim ∅ vars_in_expr) ∨
          (v ∉ callee_def.params ∧ tv = v))) ∧
    (∀ tv ln, (tv, ln) ∈ (substitute_effect callee callee_def args).write_sites ↔
      ∃ v, v ∈ callee.writes ∧ (v, ln) ∈ callee.write_sites ∧
        ((∃ i, callee_def.params.get? i = some v ∧
            tv ∈ (args.get? i).elim ∅ vars_in_expr) ∨
          (v ∉ callee_def.params ∧ tv = v))) ∧
    (substitute_effect callee callee_def args).reads =
      (substitute_effect callee callee_def args).read_sites.image Prod.fst ∧
    (substitute_effect callee callee_def args).writes =
      (substitute_effect callee callee_def args).write_sites.image Prod.fst := by
  have main : ∀ (vs : Finset String) (sites : Finset (String × Nat)) (tv : String)
      (ln : Nat),
      ((tv, ln) ∈ vs.biUnion fun v =>
        (targetsOf (paramMap callee_def.params args) v).biUnion fun tv2 =>
          (sitesFor sites v).image fun ln2 => (tv2, ln2)) ↔
      ∃ v, v ∈ vs ∧ (v, ln) ∈ sites ∧
        ((∃ i, callee_def.params.get? i = some v ∧
            tv ∈ (args.get? i).elim ∅ vars_in_expr) ∨
          (v ∉ callee_def.params ∧ tv = v)) := by
    intro vs sites tv ln
    rw [Finset.mem_biUnion]
    constructor
    · rintro ⟨v, hv, hin⟩
      rw [Finset.mem_biUnion] at hin
      obtain ⟨tv2, htv2, hImg⟩ := hin
      rw [Finset.mem_image] at hImg
      obtain ⟨ln2, hln2, heq⟩ := hImg
      have h1 : tv2 = tv := congrArg Prod.fst heq
      have h2 : ln2 = ln := congrArg Prod.snd heq
      subst h1
      subst h2
      have hsite := (mem_sitesFor sites v ln2).1 hln2
      by_cases hm : v ∈ callee_def.params
      · obtain ⟨i, hi⟩ := List.mem_iff_get?.1 hm
        rw [targetsOf_mem callee_def.params args v i hnd hi] at htv2
        exact ⟨v, hv, hsite, Or.inl ⟨i, hi, htv2⟩⟩
      · rw [targetsOf_not_mem callee_def.params args v hm] at htv2
        have : tv2 = v := Finset.mem_singleton.1 htv2
        exact ⟨v, hv, hsite, Or.inr ⟨hm, this⟩⟩
    · rintro ⟨v, hv, hsite, hc | hc⟩
      · obtain ⟨i, hi, htv⟩ := hc
        refine ⟨v, hv, ?_⟩
        rw [Finset.mem_biUnion]
        refine ⟨tv, ?_, ?_⟩
        · rw [targetsOf_mem callee_def.params args v i hnd hi]
          exact htv
        · rw [Finset.mem_image]
          exact ⟨ln, (mem_sitesFor sites v ln).2 hsite, rfl⟩
      · obtain ⟨hnm, rfl⟩ := hc
        refine ⟨tv, hv, ?_⟩
        rw [Finset.mem_biUnion]
        refine ⟨tv, ?_, ?_⟩
        · rw [targetsOf_not_mem callee_def.params args tv hnm]
          exact Finset.mem_singleton_self tv
        · rw [Finset.mem_image]
          exact ⟨ln, (mem_sitesFor sites tv ln).2 hsite, rfl⟩
  exact ⟨fun tv ln => main callee.reads callee.read_sites tv ln,
    fun tv ln => main callee.writes callee.write_sites tv ln, rfl, rfl⟩

/-- Witness for C8: in a callee reading its formal `p` (at line 4) and a
global `g` (at line 5), called with actual argument `a`, the substituted
effect reads `a` at line 4 and `g` at line 5. -/
theorem c8_substitute_effect_witness :
    ("a", 4) ∈ (substitute_effect ⟨{"p", "g"}, ∅, {("p", 4), ("g", 5)}, ∅⟩
      ⟨"f", ["p"], [], 1⟩ [.var 1 "a"]).read_sites ∧
    ("g", 5) ∈ (substitute_effect ⟨{"p", "g"}, ∅, {("p", 4), ("g", 5)}, ∅⟩
      ⟨"f", ["p"], [], 1⟩ [.var 1 "a"]).read_sites := by
  constructor
  · exact ((c8_substitute_effect ⟨{"p", "g"}, ∅, {("p", 4), ("g", 5)}, ∅⟩
      ⟨"f", ["p"], [], 1⟩ [.var 1 "a"] (by decide)).1 "a" 4).mpr
      ⟨"p", by decide, by decide, Or.inl ⟨0, by decide, by decide⟩⟩
  · exact ((c8_substitute_effect ⟨{"p", "g"}, ∅, {("p", 4), ("g", 5)}, ∅⟩
      ⟨"f", ["p"], [], 1⟩ [.var 1 "a"] (by decide)).1 "g" 5).mpr
      ⟨"g", by decide, by decide, Or.inr ⟨by decide, rfl⟩⟩

/-! ### Preservation of the `Effect` invariant -/

theorem effWF_iff (e : Effect) :
    EffWF e ↔
      ((∀ v, v ∈ e.reads ↔ ∃ ln, (v, ln) ∈ e.read_sites) ∧
        (∀ v, v ∈ e.writes ↔ ∃ ln, (v, ln) ∈ e.write_sites)) := by
  have hs : ∀ (sites : Finset (String × Nat)) (v : String),
      sitesFor sites v ≠ ∅ ↔ ∃ ln, (v, ln) ∈ sites := by
    intro sites v
    rw [← Finset.nonempty_iff_ne_empty]
    constructor
    · rintro ⟨ln, h⟩
      exact ⟨ln, (mem_sitesFor _ _ _).1 h⟩
    · rintro ⟨ln, h⟩
      exact ⟨ln, (mem_sitesFor _ _ _).2 h⟩
  unfold EffWF
  constructor
  · rintro ⟨h1, h2⟩
    exact ⟨fun v => (h1 v).trans (hs _ v), fun v => (h2 v).trans (hs _ v)⟩
  · rintro ⟨h1, h2⟩
    exact ⟨fun v => (h1 v).trans (hs _ v).symm, fun v => (h2 v).trans (hs _ v).symm⟩

theorem effect_empty_wf : EffWF Effect.empty := by
  rw [effWF_iff]
  simp [Effect.empty]

theorem add_read_wf (e : Effect) (v : String) (l : Nat) (h : EffWF e) :
    EffWF (e.add_read v l) := by
  rw [effWF_iff] at h ⊢
  obtain ⟨hr, hw⟩ := h
  refine ⟨fun u => ?_, fun u => by simpa [Effect.add_read] using hw u⟩
  simp only [Effect.add_read, Finset.mem_insert]
  constructor
  · rintro (rfl | hu)
    · exact ⟨l, Or.inl rfl⟩
    · obtain ⟨ln, hln⟩ := (hr u).1 hu
      exact ⟨ln, Or.inr hln⟩
  · rintro ⟨ln, hpair | hpair⟩
    · exact Or.inl (congrArg Prod.fst hpair)
    · exact Or.inr ((hr u).2 ⟨ln, hpair⟩)

theorem add_write_wf (e : Effect) (v : String) (l : Nat) (h : EffWF e) :
    EffWF (e.add_write v l) := by
  rw [effWF_iff] at h ⊢
  obtain ⟨hr, hw⟩ := h
  refine ⟨fun u => by simpa [Effect.add_write] using hr u, fun u => ?_⟩
  simp only [Effect.add_write, Finset.mem_insert]
  constructor
  · rintro (rfl | hu)
    · exact ⟨l, Or.inl rfl⟩
    · obtain ⟨ln, hln⟩ := (hw u).1 hu
      exact ⟨ln, Or.inr hln⟩
  · rintro ⟨ln, hpair | hpair⟩
    · exact Or.inl (congrArg Prod.fst hpair)
    · exact Or.inr ((hw u).2 ⟨ln, hpair⟩)

theorem union_wf (a b : Effect) (ha : EffWF a) (hb : EffWF b) : EffWF (a.union b) := by
  rw [effWF_iff] at ha hb ⊢
  constructor
  · intro v
    simp only [Effect.union, Finset.mem_union, ha.1 v, hb.1 v]
    constructor
    · rintro (⟨ln, h⟩ | ⟨ln, h⟩)
      · exact ⟨ln, Or.inl h⟩
      · exact ⟨ln, Or.inr h⟩
    · rintro ⟨ln, h | h⟩
      · exact Or.inl ⟨ln, h⟩
      · exact Or.inr ⟨ln, h⟩
  · intro v
    simp only [Effect.union, Finset.mem_union, ha.2 v, hb.2 v]
    constructor
    · rintro (⟨ln, h⟩ | ⟨ln, h⟩)
      · exact ⟨ln, Or.inl h⟩
      · exact ⟨ln, Or.inr h⟩
    · rintro ⟨ln, h | h⟩
      · exact Or.inl ⟨ln, h⟩
      · exact Or.inr ⟨ln, h⟩

theorem reads_at_wf (vs : Finset String) (line : Nat) : EffWF (reads_at vs line) := by
  rw [effWF_iff]
  constructor
  · intro v
    simp only [reads_at, Finset.mem_image]
    constructor
    · intro hv
      exact ⟨line, v, hv, rfl⟩
    · rintro ⟨ln, u, hu, heq⟩
      have : u = v := congrArg Prod.fst heq
      exact this ▸ hu
  · intro v
    simp [reads_at]

theorem substitute_effect_wf (c : Effect) (d : FunctionDef) (as2 : List Expr) :
    EffWF (substitute_effect c d as2) := by
  rw [effWF_iff]
  constructor
  · intro v
    simp only [substitute_effect, Finset.mem_image]
    constructor
    · rintro ⟨⟨a, b⟩, hm, h1⟩
      have ha : a = v := h1
      subst ha
      exact ⟨b, hm⟩
    · rintro ⟨ln, h⟩
      exact ⟨(v, ln), h, rfl⟩
  · intro v
    simp only [substitute_effect, Finset.mem_image]
    constructor
    · rintro ⟨⟨a, b⟩, hm, h1⟩
      have ha : a = v := h1
      subst ha
      exact ⟨b, hm⟩
    · rintro ⟨ln, h⟩
      exact ⟨(v, ln), h, rfl⟩

mutual
/-- Every effect computed for a statement satisfies the invariant. -/
theorem compute_effect_stmt_wf (stmt : Stmt) (prog : Program) (effects : EffMap)
    (cf : FunctionDef) (e : Effect)
    (h : compute_effect_stmt stmt prog effects cf = .ok e) : EffWF e := by
  cases stmt with
  | assign line target expr =>
      simp only [compute_effect_stmt, Except.ok.injEq] at h
      subst h
      exact add_write_wf _ _ _ (reads_at_wf _ _)
  | assignCall line target func args2 =>
      simp only [compute_effect_stmt, getFn, getEff] at h
      rcases hgf : alookup func prog.functions with _ | fd
      · rw [hgf] at h
        simp [except_bind_error] at h
      · rw [hgf] at h
        rcases hge : alookup func effects with _ | fe
        · rw [hge] at h
          simp [except_bind_ok, except_bind_error] at h
        · rw [hge] at h
          simp only [except_bind_ok, Except.ok.injEq] at h
          subst h
          exact add_write_wf _ _ _
            (union_wf _ _ (reads_at_wf _ _) (substitute_effect_wf _ _ _))
  | callStmt line func args2 =>
      simp only [compute_effect_stmt, getFn, getEff] at h
      rcases hgf : alookup func prog.functions with _ | fd
      · rw [hgf] at h
        simp [except_bind_error] at h
      · rw [hgf] at h
        rcases hge : alookup func effects with _ | fe
        · rw [hge] at h
          simp [except_bind_ok, except_bind_error] at h
        · rw [hge] at h
          simp only [except_bind_ok, Except.ok.injEq] at h
          subst h
          exact union_wf _ _ (reads_at_wf _ _) (substitute_effect_wf _ _ _)
  | spawn line handle target =>
      cases target with
      | call func args2 tl =>
          simp only [compute_effect_stmt, getFn, getEff] at h
          rcases hgf : alookup func prog.functions with _ | fd
          · rw [hgf] at h
            simp [except_bind_error] at h
          · rw [hgf] at h
            rcases hge : alookup func effects with _ | fe
            · rw [hge] at h
              simp [except_bind_ok, except_bind_error] at h
            · rw [hge] at h
              simp only [except_bind_ok, Except.ok.injEq] at h
              subst h
              refine union_wf _ _ (union_wf _ _ ?_ (reads_at_wf _ _))
                (substitute_effect_wf _ _ _)
              cases handle with
              | none => exact effect_empty_wf
              | some hh => exact add_write_wf _ _ _ effect_empty_wf
      | block body tl =>
          simp only [compute_effect_stmt] at h
          rcases hb : compute_effect_seq body prog effects cf with e2 | thr
          · rw [hb] at h
            simp [except_bind_error] at h
          · rw [hb] at h
            simp only [except_bind_ok, Except.ok.injEq] at h
            subst h
            refine union_wf _ _ ?_ (compute_effect_seq_wf body prog effects cf thr hb)
            cases handle with
            | none => exact effect_empty_wf
            | some hh => exact add_write_wf _ _ _ effect_empty_wf
  | await line handle =>
      simp only [compute_effect_stmt, Except.ok.injEq] at h
      subst h
      exact effect_empty_wf
  | ret line expr =>
      simp only [compute_effect_stmt, Except.ok.injEq] at h
      subst h
      exact reads_at_wf _ _
  | seq line stmts =>
      exact compute_effect_seq_wf stmts prog effects cf e
        (by simpa [compute_effect_stmt] using h)
  | ifS line cond thenS elseS =>
      simp only [compute_effect_stmt] at h
      rcases h1 : compute_effect_stmt thenS prog effects cf with e1 | f1
      · rw [h1] at h
        simp [except_bind_error] at h
      · rw [h1] at h
        rcases h2 : compute_effect_stmt elseS prog effects cf with e2 | f2
        · rw [h2] at h
          simp [except_bind_ok, except_bind_error] at h
        · rw [h2] at h
          simp only [except_bind_ok, Except.ok.injEq] at h
          subst h
          exact union_wf _ _
            (union_wf _ _ (reads_at_wf _ _)
              (compute_effect_stmt_wf thenS prog effects cf f1 h1))
            (compute_effect_stmt_wf elseS prog effects cf f2 h2)
  | whileS line cond body =>
      simp only [compute_effect_stmt] at h
      rcases h1 : compute_effect_stmt body prog effects cf with e1 | f1
      · rw [h1] at h
        simp [except_bind_error] at h
      · rw [h1] at h
        simp only [except_bind_ok, Except.ok.injEq] at h
        subst h
        exact union_wf _ _ (reads_at_wf _ _)
          (compute_effect_stmt_wf body prog effects cf f1 h1)

/-- List version of `compute_effect_stmt_wf`. -/
theorem compute_effect_seq_wf (stmts : List Stmt) (prog : Program) (effects : EffMap)
    (cf : FunctionDef) (e : Effect)
    (h : compute_effect_seq stmts prog effects cf = .ok e) : EffWF e := by
  cases stmts with
  | nil =>
      simp only [compute_effect_seq, Except.ok.injEq] at h
      subst h
      exact effect_empty_wf
  | cons s r =>
      simp only [compute_effect_seq] at h
      rcases h1 : compute_effect_stmt s prog effects cf with e1 | f1
      · rw [h1] at h
        simp [except_bind_error] at h
      · rw [h1] at h
        rcases h2 : compute_effect_seq r prog effects cf with e2 | f2
        · rw [h2] at h
          simp [except_bind_ok, except_bind_error] at h
        · rw [h2] at h
          simp only [except_bind_ok, Except.ok.injEq] at h
          subst h
          exact union_wf _ _ (compute_effect_stmt_wf s prog effects cf f1 h1)
            (compute_effect_seq_wf r prog effects cf f2 h2)
end

theorem mem_aupdate {β : Type} (k : String) (v : β) (l : List (String × β))
    (p : String × β) (h : p ∈ aupdate k v l) : p = (k, v) ∨ p ∈ l := by
  induction l with
  | nil => simpa [aupdate] using h
  | cons q r ih =>
      by_cases hk : k = q.1
      · simp only [aupdate, if_pos hk] at h
        rcases List.mem_cons.1 h with h1 | h1
        · exact Or.inl h1
        · exact Or.inr (List.mem_cons_of_mem _ h1)
      · simp only [aupdate, if_neg hk] at h
        rcases List.mem_cons.1 h with h1 | h1
        · exact Or.inr (h1 ▸ List.mem_cons_self _ _)
        · rcases ih h1 with h2 | h2
          · exact Or.inl h2
          · exact Or.inr (List.mem_cons_of_mem _ h2)

theorem step_one_wf (prog : Program) (effs : EffMap) (fname : String)
    (fdef : FunctionDef) (effs2 : EffMap) (ch : Bool)
    (hwf : ∀ p ∈ effs, EffWF p.2)
    (h : step_one prog effs fname fdef = .ok (effs2, ch)) : ∀ p ∈ effs2, EffWF p.2 := by
  simp only [step_one, getEff] at h
  rcases h1 : compute_effect_seq fdef.body prog effs fdef with e1 | ne
  · rw [h1] at h
    simp [except_bind_error] at h
  · rw [h1] at h
    rcases h2 : alookup fname effs with _ | old
    · rw [h2] at h
      simp [except_bind_ok, except_bind_error] at h
    · rw [h2] at h
      simp only [except_bind_ok] at h
      by_cases heq : ne = old
      · rw [if_pos heq, Except.ok.injEq, Prod.mk.injEq] at h
        obtain ⟨h3, _⟩ := h
        subst h3
        exact hwf
      · rw [if_neg heq, Except.ok.injEq, Prod.mk.injEq] at h
        obtain ⟨h3, _⟩ := h
        subst h3
        intro p hp
        rcases mem_aupdate _ _ _ _ hp with h4 | h4
        · rw [h4]
          exact union_wf _ _ (hwf (fname, old) (alookup_mem _ _ _ h2))
            (compute_effect_seq_wf _ _ _ _ _ h1)
        · exact hwf p h4

theorem step_pass_wf (prog : Program) :
    ∀ (fns : List (String × FunctionDef)) (effs : EffMap) (ch0 : Bool)
      (effs2 : EffMap) (ch : Bool), (∀ p ∈ effs, EffWF p.2) →
      step_pass prog fns effs ch0 = .ok (effs2, ch) → ∀ p ∈ effs2, EffWF p.2 := by
  intro fns
  induction fns with
  | nil =>
      intro effs ch0 effs2 ch hwf h
      simp only [step_pass, Except.ok.injEq, Prod.mk.injEq] at h
      obtain ⟨h1, _⟩ := h
      subst h1
      exact hwf
  | cons q rest ih =>
      intro effs ch0 effs2 ch hwf h
      obtain ⟨fname, fdef⟩ := q
      simp only [step_pass] at h
      rcases h1 : step_one prog effs fname fdef with e1 | ⟨effs1, ch1⟩
      · rw [h1] at h
        simp [except_bind_error] at h
      · rw [h1] at h
        simp only [except_bind_ok] at h
        exact ih effs1 (ch0 || ch1) effs2 ch
          (step_one_wf prog effs fname fdef effs1 ch1 hwf h1) h

theorem iterate_effects_wf (prog : Program) :
    ∀ (n : Nat) (effs effs2 : EffMap), (∀ p ∈ effs, EffWF p.2) →
      iterate_effects prog n effs = .ok effs2 → ∀ p ∈ effs2, EffWF p.2 := by
  intro n
  induction n with
  | zero =>
      intro effs effs2 hwf h
      simp only [iterate_effects, Except.ok.injEq] at h
      subst h
      exact hwf
  | succ m ih =>
      intro effs effs2 hwf h
      simp only [iterate_effects] at h
      rcases h1 : step_pass prog prog.functions effs false with e1 | ⟨effs1, ch⟩
      · rw [h1] at h
        simp [except_bind_error] at h
      · rw [h1] at h
        simp only [except_bind_ok] at h
        have hwf1 := step_pass_wf prog prog.functions effs false effs1 ch hwf h1
        cases ch with
        | false =>
            simp at h
            subst h
            exact hwf1
        | true => exact ih effs1 effs2 hwf1 h

theorem compute_function_effects_wf (prog : Program) (effs : EffMap)
    (h : compute_function_effects prog = .ok effs) : ∀ p ∈ effs, EffWF p.2 := by
  refine iterate_effects_wf prog 50 _ effs ?_ h
  intro p hp
  obtain ⟨q, _, h2⟩ := List.mem_map.1 hp
  rw [← h2]
  exact effect_empty_wf

/-- C9: every `Effect` the analysis produces or transforms satisfies the
invariant that a variable is in `reads` iff its entry in `read_sites` is
nonempty, and symmetrically for writes: the empty effect,
`add_read`/`add_write`, `union`, `substitute_effect`, every effect
computed by `compute_effect_stmt`, and every summary stored in the map
returned by `compute_function_effects`. -/
theorem c9_effect_invariant :
    EffWF Effect.empty ∧
    (∀ (e : Effect) (v : String) (l : Nat), EffWF e → EffWF (e.add_read v l)) ∧
    (∀ (e : Effect) (v : String) (l : Nat), EffWF e → EffWF (e.add_write v l)) ∧
    (∀ a b : Effect, EffWF a → EffWF b → EffWF (a.union b)) ∧
    (∀ (c : Effect) (d : FunctionDef) (as2 : List Expr),
      EffWF (substitute_effect c d as2)) ∧
    (∀ (stmt : Stmt) (prog : Program) (effects : EffMap) (cf : FunctionDef)
        (e : Effect),
      compute_effect_stmt stmt prog effects cf = .ok e → EffWF e) ∧
    (∀ (prog : Program) (effs : EffMap),
      compute_function_effects prog = .ok effs → ∀ p ∈ effs, EffWF p.2) :=
  ⟨effect_empty_wf, add_read_wf, add_write_wf, union_wf, substitute_effect_wf,
    compute_effect_stmt_wf, compute_function_effects_wf⟩

/-- Witness for C9: the invariant holds after an `add_read` on the empty
effect, for the effect of a concrete assignment, and for the summaries
of a concrete program. -/
theorem c9_effect_invariant_witness :
    EffWF (Effect.empty.add_read "x" 1) ∧
    EffWF ((reads_at {"y"} 4).add_write "x" 4) := by
  constructor
  · exact c9_effect_invariant.2.1 Effect.empty "x" 1 c9_effect_invariant.1
  · exact c9_effect_invariant.2.2.2.2.2.1 (.assign 4 "x" (.var 4 "y")) ⟨[]⟩ []
      ⟨"m", [], [], 1⟩ ((reads_at {"y"} 4).add_write "x" 4) rfl

/-! ### Monotonicity of the effect fixpoint -/

theorem effLe_refl (e : Effect) : EffLe e e :=
  ⟨Finset.Subset.refl _, Finset.Subset.refl _, Finset.Subset.refl _, Finset.Subset.refl _⟩

theorem effLe_trans (a b c : Effect) (h1 : EffLe a b) (h2 : EffLe b c) : EffLe a c :=
  ⟨h1.1.trans h2.1, h1.2.1.trans h2.2.1, h1.2.2.1.trans h2.2.2.1, h1.2.2.2.trans h2.2.2.2⟩

theorem mapLe_refl (a : EffMap) : MapLe a a :=
  fun _ e h => ⟨e, h, effLe_refl e⟩

theorem mapLe_trans (a b c : EffMap) (h1 : MapLe a b) (h2 : MapLe b c) : MapLe a c := by
  intro f e h
  obtain ⟨e2, hb, hle⟩ := h1 f e h
  obtain ⟨e3, hc, hle2⟩ := h2 f e2 hb
  exact ⟨e3, hc, effLe_trans _ _ _ hle hle2⟩

theorem step_one_mono (prog : Program) (effs : EffMap) (fname : String)
    (fdef : FunctionDef) (effs2 : EffMap) (ch : Bool)
    (h : step_one prog effs fname fdef = .ok (effs2, ch)) : MapLe effs effs2 := by
  simp only [step_one, getEff] at h
  rcases h1 : compute_effect_seq fdef.body prog effs fdef with e1 | ne
  · rw [h1] at h
    simp [except_bind_error] at h
  · rw [h1] at h
    rcases h2 : alookup fname effs with _ | old
    · rw [h2] at h
      simp [except_bind_ok, except_bind_error] at h
    · rw [h2] at h
      simp only [except_bind_ok] at h
      by_cases heq : ne = old
      · rw [if_pos heq, Except.ok.injEq, Prod.mk.injEq] at h
        obtain ⟨h3, _⟩ := h
        subst h3
        exact mapLe_refl _
      · rw [if_neg heq, Except.ok.injEq, Prod.mk.injEq] at h
        obtain ⟨h3, _⟩ := h
        subst h3
        intro f e hf
        by_cases hfn : f = fname
        · subst hfn
          rw [h2] at hf
          injection hf with hf
          refine ⟨old.union ne, alookup_aupdate_self _ _ _, ?_⟩
          rw [← hf]
          exact ⟨Finset.subset_union_left, Finset.subset_union_left,
            Finset.subset_union_left, Finset.subset_union_left⟩
        · exact ⟨e, by rw [alookup_aupdate_ne _ _ _ _ hfn]; exact hf, effLe_refl e⟩

theorem step_pass_mono (prog : Program) :
    ∀ (fns : List (String × FunctionDef)) (effs : EffMap) (ch0 : Bool)
      (effs2 : EffMap) (ch : Bool),
      step_pass prog fns effs ch0 = .ok (effs2, ch) → MapLe effs effs2 := by
  intro fns
  induction fns with
  | nil =>
      intro effs ch0 effs2 ch h
      simp only [step_pass, Except.ok.injEq, Prod.mk.injEq] at h
      obtain ⟨h1, _⟩ := h
      subst h1
      exact mapLe_refl _
  | cons q rest ih =>
      intro effs ch0 effs2 ch h
      obtain ⟨fname, fdef⟩ := q
      simp only [step_pass] at h
      rcases h1 : step_one prog effs fname fdef with e1 | ⟨effs1, ch1⟩
      · rw [h1] at h
        simp [except_bind_error] at h
      · rw [h1] at h
        simp only [except_bind_ok] at h
        exact mapLe_trans _ _ _ (step_one_mono prog effs fname fdef effs1 ch1 h1)
          (ih effs1 (ch0 || ch1) effs2 ch h)

theorem step_one_unchanged (prog : Program) (effs : EffMap) (fname : String)
    (fdef : FunctionDef) (effs2 : EffMap)
    (h : step_one prog effs fname fdef = .ok (effs2, false)) : effs2 = effs := by
  simp only [step_one, getEff] at h
  rcases h1 : compute_effect_seq fdef.body prog effs fdef with e1 | ne
  · rw [h1] at h
    simp [except_bind_error] at h
  · rw [h1] at h
    rcases h2 : alookup fname effs with _ | old
    · rw [h2] at h
      simp [except_bind_ok, except_bind_error] at h
    · rw [h2] at h
      simp only [except_bind_ok] at h
      by_cases heq : ne = old
      · rw [if_pos heq, Except.ok.injEq, Prod.mk.injEq] at h
        exact h.1.symm
      · rw [if_neg heq, Except.ok.injEq, Prod.mk.injEq] at h
        exact absurd h.2 (by simp)

theorem step_pass_unchanged (prog : Program) :
    ∀ (fns : List (String × FunctionDef)) (effs : EffMap) (ch0 : Bool)
      (effs2 : EffMap),
      step_pass prog fns effs ch0 = .ok (effs2, false) → effs2 = effs ∧ ch0 = false := by
  intro fns
  induction fns with
  | nil =>
      intro effs ch0 effs2 h
      simp only [step_pass, Except.ok.injEq, Prod.mk.injEq] at h
      exact ⟨h.1.symm, h.2⟩
  | cons q rest ih =>
      intro effs ch0 effs2 h
      obtain ⟨fname, fdef⟩ := q
      simp only [step_pass] at h
      rcases h1 : step_one prog effs fname fdef with e1 | ⟨effs1, ch1⟩
      · rw [h1] at h
        simp [except_bind_error] at h
      · rw [h1] at h
        simp only [except_bind_ok] at h
        obtain ⟨he, hor⟩ := ih effs1 (ch0 || ch1) effs2 h
        have hch : ch0 = false ∧ ch1 = false := by
          cases ch0 <;> cases ch1 <;> simp_all
        rw [hch.2] at h1
        exact ⟨he.trans (step_one_unchanged prog effs fname fdef effs1 h1), hch.1⟩

theorem passes_stable (prog : Program) (effs : EffMap)
    (h : step_pass prog prog.functions effs false = .ok (effs, false)) :
    ∀ n, passes prog n effs = .ok effs := by
  intro n
  induction n with
  | zero => rfl
  | succ m ih =>
      simp only [passes, h, except_bind_ok]
      exact ih

/-- C6: the summaries of `compute_function_effects` grow monotonically —
after each full pass every stored summary's reads, writes and site maps
contain those of the previous pass — and when a pass reports no change
the map is a fixed point of the iteration: it is returned unchanged and
every further number of passes yields the same map (the limit of the
iteration). -/
theorem c6_effects_monotone :
    (∀ (prog : Program) (effs : EffMap) (k : Nat) (A B : EffMap),
      passes prog k effs = .ok A → passes prog (k + 1) effs = .ok B → MapLe A B) ∧
    (∀ (prog : Program) (effs effs2 : EffMap),
      step_pass prog prog.functions effs false = .ok (effs2, false) →
      effs2 = effs ∧ ∀ n, passes prog n effs = .ok effs) := by
  constructor
  · intro prog effs k
    induction k generalizing effs with
    | zero =>
        intro A B hA hB
        simp only [passes, Except.ok.injEq] at hA
        subst hA
        simp only [passes] at hB
        rcases h1 : step_pass prog prog.functions effs false with e1 | ⟨effs1, ch⟩
        · rw [h1] at hB
          simp [except_bind_error] at hB
        · rw [h1] at hB
          simp only [except_bind_ok, passes, Except.ok.injEq] at hB
          subst hB
          exact step_pass_mono prog prog.functions effs false _ ch h1
    | succ m ih =>
        intro A B hA hB
        simp only [passes] at hA hB
        rcases h1 : step_pass prog prog.functions effs false with e1 | ⟨effs1, ch⟩
        · rw [h1] at hA
          simp [except_bind_error] at hA
        · rw [h1] at hA hB
          simp only [except_bind_ok] at hA hB
          exact ih effs1 A B hA hB
  · intro prog effs effs2 h
    obtain ⟨he, _⟩ := step_pass_unchanged prog prog.functions effs false effs2 h
    subst he
    exact ⟨rfl, passes_stable prog effs2 h⟩

/-- Witness for C6 on a one-function program with an empty body: the
first pass changes nothing, iterates agree, and the map only grows. -/
theorem c6_effects_monotone_witness :
    (passes prog_trivial 0 effmap_trivial = .ok effmap_trivial ∧
      passes prog_trivial 1 effmap_trivial = .ok effmap_trivial ∧
      MapLe effmap_trivial effmap_trivial) ∧
    (effmap_trivial = effmap_trivial ∧
      passes prog_trivial 3 effmap_trivial = .ok effmap_trivial) := by
  have h1 := c6_effects_monotone.1 prog_trivial effmap_trivial 0 effmap_trivial
    effmap_trivial (by decide) (by decide)
  have h2 := c6_effects_monotone.2 prog_trivial effmap_trivial effmap_trivial (by decide)
  exact ⟨⟨by decide, by decide, h1⟩, h2.1, h2.2 3⟩

/-! ### Failure analysis for undefined callees -/

mutual
/-- Under a summary map covering every defined function, any error of the
effect computation is a `KeyError` naming an undefined function. -/
theorem compute_effect_stmt_err (stmt : Stmt) (prog : Program) (effects : EffMap)
    (cf : FunctionDef) (e : AnalysisError) (hkc : KeyCompat prog effects)
    (h : compute_effect_stmt stmt prog effects cf = .error e) :
    ∃ n, e = .keyError n ∧ alookup n prog.functions = none := by
  cases stmt with
  | assign line target expr => simp [compute_effect_stmt] at h
  | assignCall line target func args2 =>
      simp only [compute_effect_stmt, getFn, getEff] at h
      rcases hgf : alookup func prog.functions with _ | fd
      · rw [hgf] at h
        simp only [except_bind_error, Except.error.injEq] at h
        exact ⟨func, h.symm, hgf⟩
      · rw [hgf] at h
        rcases hge : alookup func effects with _ | fe
        · have := hkc func (by simp [hgf])
          rw [hge] at this
          simp at this
        · rw [hge] at h
          simp [except_bind_ok] at h
  | callStmt line func args2 =>
      simp only [compute_effect_stmt, getFn, getEff] at h
      rcases hgf : alookup func prog.functions with _ | fd
      · rw [hgf] at h
        simp only [except_bind_error, Except.error.injEq] at h
        exact ⟨func, h.symm, hgf⟩
      · rw [hgf] at h
        rcases hge : alookup func effects with _ | fe
        · have := hkc func (by simp [hgf])
          rw [hge] at this
          simp at this
        · rw [hge] at h
          simp [except_bind_ok] at h
  | spawn line handle target =>
      cases target with
      | call func args2 tl =>
          simp only [compute_effect_stmt, getFn, getEff] at h
          rcases hgf : alookup func prog.functions with _ | fd
          · rw [hgf] at h
            simp only [except_bind_error, Except.error.injEq] at h
            exact ⟨func, h.symm, hgf⟩
          · rw [hgf] at h
            rcases hge : alookup func effects with _ | fe
            · have := hkc func (by simp [hgf])
              rw [hge] at this
              simp at this
            · rw [hge] at h
              simp [except_bind_ok] at h
      | block body tl =>
          simp only [compute_effect_stmt] at h
          rcases hb : compute_effect_seq body prog effects cf with e2 | thr
          · rw [hb] at h
            simp only [except_bind_error, Except.error.injEq] at h
            exact h ▸ compute_effect_seq_err body prog effects cf e2 hkc hb
          · rw [hb] at h
            simp [except_bind_ok] at h
  | await line handle => simp [compute_effect_stmt] at h
  | ret line expr => simp [compute_effect_stmt] at h
  | seq line stmts =>
      exact compute_effect_seq_err stmts prog effects cf e hkc
        (by simpa [compute_effect_stmt] using h)
  | ifS line cond thenS elseS =>
      simp only [compute_effect_stmt] at h
      rcases h1 : compute_effect_stmt thenS prog effects cf with e1 | f1
      · rw [h1] at h
        simp only [except_bind_error, Except.error.injEq] at h
        exact h ▸ compute_effect_stmt_err thenS prog effects cf e1 hkc h1
      · rw [h1] at h
        rcases h2 : compute_effect_stmt elseS prog effects cf with e2 | f2
        · rw [h2] at h
          simp only [except_bind_ok, except_bind_error, Except.error.injEq] at h
          exact h ▸ compute_effect_stmt_err elseS prog effects cf e2 hkc h2
        · rw [h2] at h
          simp [except_bind_ok] at h
  | whileS line cond body =>
      simp only [compute_effect_stmt] at h
      rcases h1 : compute_effect_stmt body prog effects cf with e1 | f1
      · rw [h1] at h
        simp only [except_bind_error, Except.error.injEq] at h
        exact h ▸ compute_effect_stmt_err body prog effects cf e1 hkc h1
      · rw [h1] at h
        simp [except_bind_ok] at h

/-- List version of `compute_effect_stmt_err`. -/
theorem compute_effect_seq_err (stmts : List Stmt) (prog : Program) (effects : EffMap)
    (cf : FunctionDef) (e : AnalysisError) (hkc : KeyCompat prog effects)
    (h : compute_effect_seq stmts prog effects cf = .error e) :
    ∃ n, e = .keyError n ∧ alookup n prog.functions = none := by
  cases stmts with
  | nil => simp [compute_effect_seq] at h
  | cons s r =>
      simp only [compute_effect_seq] at h
      rcases h1 : compute_effect_stmt s prog effects cf with e1 | f1
      · rw [h1] at h
        simp only [except_bind_error, Except.error.injEq] at h
        exact h ▸ compute_effect_stmt_err s prog effects cf e1 hkc h1
      · rw [h1] at h
        rcases h2 : compute_effect_seq r prog effects cf with e2 | f2
        · rw [h2] at h
          simp only [except_bind_ok, except_bind_error, Except.error.injEq] at h
          exact h ▸ compute_effect_seq_err r prog effects cf e2 hkc h2
        · rw [h2] at h
          simp [except_bind_ok] at h
end

mutual
/-- A statement holding a call of an undefined function makes the effect
computation fail. -/
theorem compute_effect_stmt_missing (stmt : Stmt) (prog : Program) (effects : EffMap)
    (cf : FunctionDef) (hm : has_missing_callee prog stmt = true) :
    ∃ e, compute_effect_stmt stmt prog effects cf = .error e := by
  cases stmt with
  | assign line target expr => simp [has_missing_callee] at hm
  | assignCall line target func args2 =>
      simp only [has_missing_callee, Option.isNone_iff_eq_none] at hm
      refine ⟨.keyError func, ?_⟩
      simp [compute_effect_stmt, getFn, hm, except_bind_error]
  | callStmt line func args2 =>
      simp only [has_missing_callee, Option.isNone_iff_eq_none] at hm
      refine ⟨.keyError func, ?_⟩
      simp [compute_effect_stmt, getFn, hm, except_bind_error]
  | spawn line handle target =>
      cases target with
      | call func args2 tl =>
          simp only [has_missing_callee, has_missing_callee_target,
            Option.isNone_iff_eq_none] at hm
          refine ⟨.keyError func, ?_⟩
          simp [compute_effect_stmt, getFn, hm, except_bind_error]
      | block body tl =>
          simp only [has_missing_callee, has_missing_callee_target] at hm
          obtain ⟨e, he⟩ := compute_effect_seq_missing body prog effects cf hm
          refine ⟨e, ?_⟩
          simp [compute_effect_stmt, he, except_bind_error]
  | await line handle => simp [has_missing_callee] at hm
  | ret line expr => simp [has_missing_callee] at hm
  | seq line stmts =>
      simp only [has_missing_callee] at hm
      obtain ⟨e, he⟩ := compute_effect_seq_missing stmts prog effects cf hm
      exact ⟨e, by simpa [compute_effect_stmt] using he⟩
  | ifS line cond thenS elseS =>
      simp only [has_missing_callee, Bool.or_eq_true] at hm
      rcases h1 : compute_effect_stmt thenS prog effects cf with e1 | f1
      · exact ⟨e1, by simp [compute_effect_stmt, h1, except_bind_error]⟩
      · rcases hm with hm | hm
        · obtain ⟨e, he⟩ := compute_effect_stmt_missing thenS prog effects cf hm
          rw [h1] at he
          simp at he
        · obtain ⟨e, he⟩ := compute_effect_stmt_missing elseS prog effects cf hm
          exact ⟨e, by simp [compute_effect_stmt, h1, he, except_bind_ok,
            except_bind_error]⟩
  | whileS line cond body =>
      simp only [has_missing_callee] at hm
      obtain ⟨e, he⟩ := compute_effect_stmt_missing body prog effects cf hm
      exact ⟨e, by simp [compute_effect_stmt, he, except_bind_error]⟩

/-- List version of `compute_effect_stmt_missing`. -/
theorem compute_effect_seq_missing (stmts : List Stmt) (prog : Program)
    (effects : EffMap) (cf : FunctionDef)
    (hm : has_missing_callee_seq prog stmts = true) :
    ∃ e, compute_effect_seq stmts prog effects cf = .error e := by
  cases stmts with
  | nil => simp [has_missing_callee_seq] at hm
  | cons s r =>
      simp only [has_missing_callee_seq, Bool.or_eq_true] at hm
      rcases h1 : compute_effect_stmt s prog effects cf with e1 | f1
      · exact ⟨e1, by simp [compute_effect_seq, h1, except_bind_error]⟩
      · rcases hm with hm | hm
        · obtain ⟨e, he⟩ := compute_effect_stmt_missing s prog effects cf hm
          rw [h1] at he
          simp at he
        · obtain ⟨e, he⟩ := compute_effect_seq_missing r prog effects cf hm
          exact ⟨e, by simp [compute_effect_seq, h1, he, except_bind_ok,
            except_bind_error]⟩
end

theorem step_one_keycompat (prog : Program) (effs : EffMap) (fname : String)
    (fdef : FunctionDef) (effs2 : EffMap) (ch : Bool) (hkc : KeyCompat prog effs)
    (h : step_one prog effs fname fdef = .ok (effs2, ch)) : KeyCompat prog effs2 := by
  simp only [step_one, getEff] at h
  rcases h1 : compute_effect_seq fdef.body prog effs fdef with e1 | ne
  · rw [h1] at h
    simp [except_bind_error] at h
  · rw [h1] at h
    rcases h2 : alookup fname effs with _ | old
    · rw [h2] at h
      simp [except_bind_ok, except_bind_error] at h
    · rw [h2] at h
      simp only [except_bind_ok] at h
      by_cases heq : ne = old
      · rw [if_pos heq, Except.ok.injEq, Prod.mk.injEq] at h
        obtain ⟨h3, _⟩ := h
        subst h3
        exact hkc
      · rw [if_neg heq, Except.ok.injEq, Prod.mk.injEq] at h
        obtain ⟨h3, _⟩ := h
        subst h3
        intro f hf
        exact alookup_isSome_aupdate _ _ _ _ (hkc f hf)

theorem step_pass_missing (prog : Program) :
    ∀ (fns : List (String × FunctionDef)) (effs : EffMap) (ch0 : Bool),
      KeyCompat prog effs →
      (∀ p ∈ fns, (alookup p.1 prog.functions).isSome) →
      (∃ p ∈ fns, has_missing_callee_seq prog p.2.body = true) →
      ∃ n, step_pass prog fns effs ch0 = .error (.keyError n) ∧
        alookup n prog.functions = none := by
  intro fns
  induction fns with
  | nil =>
      intro effs ch0 _ _ hm
      simp at hm
  | cons q rest ih =>
      intro effs ch0 hkc hkeys hm
      obtain ⟨fname, fdef⟩ := q
      rcases hs : step_one prog effs fname fdef with e1 | ⟨effs1, ch1⟩
      · have herr : ∃ n, e1 = .keyError n ∧ alookup n prog.functions = none := by
          simp only [step_one, getEff] at hs
          rcases h1 : compute_effect_seq fdef.body prog effs fdef with e2 | ne
          · rw [h1] at hs
            simp only [except_bind_error, Except.error.injEq] at hs
            exact hs ▸ compute_effect_seq_err fdef.body prog effs fdef e2 hkc h1
          · rw [h1] at hs
            rcases h2 : alookup fname effs with _ | old
            · have := hkc fname (hkeys (fname, fdef) (List.mem_cons_self _ _))
              rw [h2] at this
              simp at this
            · rw [h2] at hs
              simp only [except_bind_ok] at hs
              by_cases heq : ne = old
              · rw [if_pos heq] at hs
                simp at hs
              · rw [if_neg heq] at hs
                simp at hs
        obtain ⟨n, he, hn⟩ := herr
        refine ⟨n, ?_, hn⟩
        simp [step_pass, hs, he, except_bind_error]
      · rcases hm with ⟨p, hp, hmp⟩
        rcases List.mem_cons.1 hp with h1 | h1
        · exfalso
          have hp2 : has_missing_callee_seq prog fdef.body = true := by
            rw [show fdef = p.2 from by rw [h1]]
            exact hmp
          obtain ⟨e, he⟩ := compute_effect_seq_missing fdef.body prog effs fdef hp2
          simp [step_one, he, except_bind_error] at hs
        · obtain ⟨n, hsp, hn⟩ := ih effs1 (ch0 || ch1)
            (step_one_keycompat prog effs fname fdef effs1 ch1 hkc hs)
            (fun p2 hp2 => hkeys p2 (List.mem_cons_of_mem _ hp2)) ⟨p, h1, hmp⟩
          refine ⟨n, ?_, hn⟩
          simp [step_pass, hs, except_bind_ok, hsp]

/-- Counterexample for C10 as stated: a program with an undefined callee
`g` that also places an `await` inside an `if` fails with the semantic
`ValueError` from the constraint phase, not with a `KeyError`. -/
theorem c10_counterexample_valueerror :
    (∃ p ∈ prog_missing_and_violation.functions,
      has_missing_callee_seq prog_missing_and_violation p.2.body = true) ∧
    analyze_program prog_missing_and_violation =
      .error (.valueError (constraint_msg 3)) := by
  exact ⟨⟨_, List.mem_cons_self _ _, by decide⟩, by decide⟩

/-- C10 (amended): for any program that passes the spawn/await constraint
and contains an `AssignCall`, `Call` or `SpawnCall` whose callee is not
a key of the function table, `analyze_program` fails with an uncaught
`KeyError` naming an undefined function (so no warning list is
returned); well-definedness of callee names is an unstated precondition. -/
theorem c10_missing_callee_keyerror (prog : Program)
    (henf : enforce_program prog.functions = .ok ())
    (hm : ∃ p ∈ prog.functions, has_missing_callee_seq prog p.2.body = true) :
    ∃ n, alookup n prog.functions = none ∧
      analyze_program prog = .error (.keyError n) := by
  have hkc : KeyCompat prog (prog.functions.map fun p => (p.1, Effect.empty)) := by
    intro f hf
    rw [alookup_map_const]
    simp [Option.isSome_iff_exists] at hf ⊢
    obtain ⟨d, hd⟩ := hf
    exact ⟨d, hd⟩
  obtain ⟨n, hsp, hn⟩ := step_pass_missing prog prog.functions
    (prog.functions.map fun p => (p.1, Effect.empty)) false hkc
    (fun p hp => mem_alookup_isSome p _ hp) hm
  have hcfe : compute_function_effects prog = .error (.keyError n) := by
    rw [compute_function_effects, show (50 : Nat) = 49 + 1 from rfl]
    simp [iterate_effects, hsp, except_bind_error]
  refine ⟨n, hn, ?_⟩
  simp [analyze_program, henf, except_bind_ok, hcfe, except_bind_error]

/-- Witness for C10 at `main() { g(); }` with `g` undefined: the analysis
fails with `KeyError` on `g`. -/
theorem c10_missing_callee_keyerror_witness :
    analyze_program prog_missing_only = .error (.keyError "g") ∧
    alookup "g" prog_missing_only.functions = none := by
  obtain ⟨n, hn, he⟩ := c10_missing_callee_keyerror prog_missing_only (by decide)
    ⟨_, List.mem_cons_self _ _, by decide⟩
  have hval : analyze_program prog_missing_only = .error (.keyError "g") := by decide
  rw [he] at hval
  injection hval with h1
  injection h1 with h2
  subst h2
  exact ⟨he, hn⟩

end SmallRace
